import Mathlib

/-!
Verification of the kerkerker-douban-service core against its specification.

Go strings are modelled as byte lists (`GoStr := List Nat`, each entry a byte
value < 256); Go slices that distinguish nil from empty are modelled as
`Option (List _)`.  Machine integers are modelled as `Nat`/`Int` with explicit
`% 2^64` where uint64 wraparound matters.  Network I/O is modelled by oracles
(functions from attempt number / URL to an outcome), and Redis by explicit
state records.  `float64` arithmetic is idealised as real arithmetic.
-/

/-- Go `string` as a byte sequence (each entry a byte value). -/
abbrev GoStr := List Nat

/-- Embed an ASCII Lean string as a Go byte string (used for concrete inputs;
for ASCII text the UTF-8 bytes are exactly the code points). -/
def asciiStr (s : String) : GoStr := s.toList.map Char.toNat

namespace Service

/-- `isDigits` from the TMDB service helpers: every byte is an ASCII digit.
(Go ranges over runes, but a byte outside 0x30-0x39 can never decode to a
digit rune, so the byte-level check is equivalent.) -/
def isDigits (s : GoStr) : Bool := s.all fun c => 48 ≤ c && c ≤ 57

/-- ASCII whitespace bytes trimmed by `strings.TrimSpace` (its ASCII fast
path: tab, newline, vertical tab, form feed, carriage return, space).
Multi-byte Unicode spaces are not modelled. -/
def isSpaceByte (c : Nat) : Bool :=
  c = 9 || c = 10 || c = 11 || c = 12 || c = 13 || c = 32

/-- `strings.TrimSpace` on byte strings (ASCII whitespace). -/
def trimSpace (s : GoStr) : GoStr :=
  (s.dropWhile isSpaceByte).reverse.dropWhile isSpaceByte |>.reverse

/-- The scan of `extractYearFromTitle`: walk index `i` downwards (Go:
`for i := len(title) - 1; i >= 4; i--`); at each `i` with `title[i] == ')'`,
check `start := i - 5; start >= 0 && title[start] == '('` and that the four
bytes `title[start+1 : i]` are digits. -/
def extractScan (title : GoStr) : Nat → GoStr
  | 0 => []
  | i + 1 =>
    if 4 ≤ i + 1 then
      if title.getD (i + 1) 0 = 41 then
        if 5 ≤ i + 1 ∧ title.getD (i + 1 - 5) 0 = 40 then
          if ((title.drop (i + 1 - 4)).take (i + 1 - (i + 1 - 4))).length = 4 ∧
              isDigits ((title.drop (i + 1 - 4)).take (i + 1 - (i + 1 - 4))) then
            (title.drop (i + 1 - 4)).take (i + 1 - (i + 1 - 4))
          else extractScan title i
        else extractScan title i
      else extractScan title i
    else []

/-- `extractYearFromTitle` from the TMDB service. -/
def extractYearFromTitle (title : GoStr) : GoStr :=
  extractScan title (title.length - 1)

/-- The scan of `removeYearFromTitle`: identical loop; on a hit it returns
`strings.TrimSpace(title[:start])`. -/
def removeScan (title : GoStr) : Nat → GoStr
  | 0 => title
  | i + 1 =>
    if 4 ≤ i + 1 then
      if title.getD (i + 1) 0 = 41 then
        if 5 ≤ i + 1 ∧ title.getD (i + 1 - 5) 0 = 40 then
          if ((title.drop (i + 1 - 4)).take (i + 1 - (i + 1 - 4))).length = 4 ∧
              isDigits ((title.drop (i + 1 - 4)).take (i + 1 - (i + 1 - 4))) then
            trimSpace (title.take (i + 1 - 5))
          else removeScan title i
        else removeScan title i
      else removeScan title i
    else title

/-- `removeYearFromTitle` from the TMDB service. -/
def removeYearFromTitle (title : GoStr) : GoStr :=
  removeScan title (title.length - 1)

/-- A "(dddd)" pattern starting at byte offset `s` of `t`: an opening
parenthesis, four digit bytes, a closing parenthesis. -/
def patternAt (t : GoStr) (s : Nat) : Prop :=
  s + 5 < t.length ∧ t.getD s 0 = 40 ∧ t.getD (s + 5) 0 = 41 ∧
    isDigits ((t.drop (s + 1)).take 4) = true

instance (t : GoStr) (s : Nat) : Decidable (patternAt t s) := by
  unfold patternAt; infer_instance

/-- The four digit bytes of the pattern starting at offset `s`. -/
def yearAt (t : GoStr) (s : Nat) : GoStr := (t.drop (s + 1)).take 4

/-- The condition under which the scans hit at closing-parenthesis index `j`:
all four nested guards of the loop body. -/
def hitAt (t : GoStr) (j : Nat) : Prop :=
  4 ≤ j ∧ t.getD j 0 = 41 ∧ (5 ≤ j ∧ t.getD (j - 5) 0 = 40) ∧
    (((t.drop (j - 4)).take (j - (j - 4))).length = 4 ∧
      isDigits ((t.drop (j - 4)).take (j - (j - 4))) = true)

instance (t : GoStr) (j : Nat) : Decidable (hitAt t j) := by
  unfold hitAt; infer_instance

/-- TMDB search result (part_005): strings as byte lists, `float64` fields
as real numbers. -/
structure TMDBSearchResult where
  ID : Int
  Title : GoStr
  OriginalTitle : GoStr
  BackdropPath : GoStr
  ReleaseDate : GoStr
  VoteAverage : ℝ
  Popularity : ℝ

/-- ASCII lowering of one byte (`strings.ToLower`; bytes outside A-Z are
unchanged — Unicode case folding beyond ASCII is not modelled). -/
def toLowerByte (c : Nat) : Nat := if 65 ≤ c ∧ c ≤ 90 then c + 32 else c

/-- `strings.ToLower` on byte strings. -/
def asciiToLower (s : GoStr) : GoStr := s.map toLowerByte

/-- `strings.Contains`: `sub` occurs as a contiguous byte substring of `s`. -/
def goContains (s sub : GoStr) : Bool :=
  (List.range (s.length + 1)).any fun i => (s.drop i).take sub.length == sub

/-- The `atoi` helper of part_005: accumulate digit bytes, ignore others. -/
def atoi (s : GoStr) : Int :=
  s.foldl (fun result c =>
    if 48 ≤ c ∧ c ≤ 57 then result * 10 + ((c : Int) - 48) else result) 0

/-- The `abs` helper of part_005. -/
def goAbs (x : Int) : Int := if x < 0 then -x else x

/-- The score computed for one candidate inside `findBestMatch`:
year match (+100 exact / +50 within one year), title match against the
original title when present else the display title (+50 equal / +25
substring either way), plus `VoteAverage * 2 + log10(Popularity + 1) * 5`. -/
noncomputable def matchScore (result : TMDBSearchResult) (searchTitle year : GoStr) : ℝ :=
  let score : ℝ := 0
  let score := if year ≠ [] ∧ 4 ≤ result.ReleaseDate.length then
      if result.ReleaseDate.take 4 = year then score + 100
      else if goAbs (atoi (result.ReleaseDate.take 4) - atoi year) ≤ 1 then score + 50
      else score
    else score
  let movieTitle := asciiToLower result.Title
  let movieTitle := if result.OriginalTitle ≠ [] then asciiToLower result.OriginalTitle
    else movieTitle
  let searchLower := asciiToLower searchTitle
  let score := if movieTitle = searchLower then score + 50
    else if goContains movieTitle searchLower || goContains searchLower movieTitle then
      score + 25
    else score
  score + result.VoteAverage * 2 + Real.logb 10 (result.Popularity + 1) * 5

/- The loop of `findBestMatch`: skip candidates with an empty backdrop path,
keep the first candidate whose score strictly exceeds the best so far
(initially 0). -/
open scoped Classical in
noncomputable def findBestMatchAux (searchTitle year : GoStr) :
    List TMDBSearchResult → ℝ → Option TMDBSearchResult → Option TMDBSearchResult
  | [], _, best => best
  | r :: rest, bestScore, best =>
    if r.BackdropPath = [] then findBestMatchAux searchTitle year rest bestScore best
    else if matchScore r searchTitle year > bestScore then
      findBestMatchAux searchTitle year rest (matchScore r searchTitle year) (some r)
    else findBestMatchAux searchTitle year rest bestScore best

/-- `findBestMatch` from the TMDB service. -/
noncomputable def findBestMatch (results : List TMDBSearchResult)
    (searchTitle year : GoStr) : Option TMDBSearchResult :=
  findBestMatchAux searchTitle year results 0 none

/-- The claim's wording of the score: a year term (100 exact, 50 within one
year, 0 otherwise or when either year is unknown) plus a title term (50
equality, 25 substring containment either way, else 0, case-insensitively
against the original title when present else the display title) plus the
quality term `2 * rating + 5 * log10(popularity + 1)`. -/
noncomputable def specScore (r : TMDBSearchResult) (targetTitle targetYear : GoStr) : ℝ :=
  (if targetYear = [] ∨ r.ReleaseDate.length < 4 then 0
    else if r.ReleaseDate.take 4 = targetYear then 100
    else if goAbs (atoi (r.ReleaseDate.take 4) - atoi targetYear) ≤ 1 then 50
    else 0) +
  (if (if r.OriginalTitle ≠ [] then asciiToLower r.OriginalTitle
        else asciiToLower r.Title) = asciiToLower targetTitle then 50
    else if goContains (if r.OriginalTitle ≠ [] then asciiToLower r.OriginalTitle
          else asciiToLower r.Title) (asciiToLower targetTitle) ||
        goContains (asciiToLower targetTitle)
          (if r.OriginalTitle ≠ [] then asciiToLower r.OriginalTitle
            else asciiToLower r.Title) then 25
    else 0) +
  (2 * r.VoteAverage + 5 * Real.logb 10 (r.Popularity + 1))

/-- `getNextKey`: the uint64 `keyIndex` counter is modelled as a `Nat`
reduced mod `2^64`.  `atomic.AddUint64(&s.keyIndex, 1)` returns the
incremented value; the code subtracts 1 (uint64 wraparound) and indexes the
pool by `idx % len(apiKeys)`.  Empty pool: return `""` without touching the
counter. -/
def getNextKey (apiKeys : List String) (keyIndex : Nat) : String × Nat :=
  if apiKeys.length = 0 then ("", keyIndex)
  else
    let newVal := (keyIndex + 1) % 2 ^ 64
    let idx := (newVal + (2 ^ 64 - 1)) % 2 ^ 64
    (apiKeys.getD (idx % apiKeys.length) "", newVal)

/-- State after `k` sequential `getNextKey` calls from a fresh counter,
paired with the key returned by the `k`-th call. -/
def runKeys (apiKeys : List String) : Nat → Nat × String
  | 0 => (0, "")
  | k + 1 =>
    let st := (runKeys apiKeys k).1
    let r := getNextKey apiKeys st
    (r.2, r.1)

/-- `IsConfigured` from the TMDB service. -/
def IsConfigured (apiKeys : List String) : Bool := apiKeys.length > 0

/-- Outcome of the single TMDB HTTP request (transport failure or a status
and fully-read body; body read errors are folded into `failure`). -/
inductive TMDBHttpOutcome where
  | failure (e : GoStr)
  | response (status : Nat) (body : GoStr)

/-- Errors returned by `SearchMovieBackdrop`. -/
inductive TMDBError where
  | notConfigured
  | searchFailed (e : GoStr)
  | badStatus (status : Nat)
  | parseFailed
  deriving DecidableEq

/- `SearchMovieBackdrop`, with the HTTP round trip abstracted as
`doRequest` (search URL and bearer key to outcome), query escaping as
`queryEscape`, and JSON decoding as `parse` (`none` = unmarshal error).
Returns ((backdrop URL, error), number of HTTP requests issued, new key
counter). -/
open scoped Classical in
noncomputable def SearchMovieBackdrop (apiKeys : List String) (keyIndex : Nat)
    (baseURL imageBase : GoStr) (queryEscape : GoStr → GoStr)
    (doRequest : GoStr → String → TMDBHttpOutcome)
    (parse : GoStr → Option (List TMDBSearchResult))
    (title year : GoStr) : (GoStr × Option TMDBError) × Nat × Nat :=
  let r0 := getNextKey apiKeys keyIndex
  let apiKey := r0.1
  let keyIndex1 := r0.2
  if apiKey = "" then (([], some .notConfigured), 0, keyIndex1)
  else
    let yearMatch := extractYearFromTitle title
    let cleanTitle := if yearMatch ≠ [] then removeYearFromTitle title else title
    let extractedYear := if yearMatch ≠ [] then yearMatch else year
    let searchURL := baseURL ++ asciiStr "/search/movie?query=" ++ queryEscape cleanTitle ++
      asciiStr "&language=zh-CN" ++
      (if extractedYear ≠ [] then asciiStr "&year=" ++ extractedYear else [])
    match doRequest searchURL apiKey with
    | .failure e => (([], some (.searchFailed e)), 1, keyIndex1)
    | .response status body =>
      if status ≠ 200 then (([], some (.badStatus status)), 1, keyIndex1)
      else
        match parse body with
        | none => (([], some .parseFailed), 1, keyIndex1)
        | some results =>
          if results.length = 0 then (([], none), 1, keyIndex1)
          else
            match findBestMatch results cleanTitle extractedYear with
            | none => (([], none), 1, keyIndex1)
            | some bestMatch => ((imageBase ++ bestMatch.BackdropPath, none), 1, keyIndex1)

/-- A Go slice: `none` is the nil slice, `some l` a non-nil slice of
elements `l`. -/
abbrev GoSlice (α : Type) := Option (List α)

/-- `model.SuggestItem` fields used here. -/
structure SuggestItem where
  ID : GoStr
  Img : GoStr
  Title : GoStr

/-- Raw photo entry of `DoubanPhotosResponse`. -/
structure PhotoRaw where
  ID : GoStr
  Image : GoStr
  Thumb : GoStr

/-- `model.Photo`. -/
structure Photo where
  ID : GoStr
  Image : GoStr
  Thumb : GoStr

/-- `model.CommentAuthor`. -/
structure CommentAuthor where
  Name : GoStr

/-- Raw comment entry of `DoubanCommentsResponse`. -/
structure CommentRaw where
  ID : GoStr
  Content : GoStr
  AuthorName : GoStr

/-- `model.Comment`. -/
structure Comment where
  ID : GoStr
  Content : GoStr
  Author : CommentAuthor

/-- Raw recommendation entry of `DoubanRecommendationsResponse`. -/
structure RecommendationRaw where
  ID : GoStr
  Title : GoStr
  Cover : GoStr
  Rate : GoStr

/-- `model.Subject` fields used here. -/
structure Subject where
  ID : GoStr
  Title : GoStr
  Cover : GoStr
  Rate : GoStr

/-- `GetSubjectSuggest` (part_005): the upstream fetch is `fetched`
(`Except` error or body bytes) and JSON decoding is `parse` (`none` =
unmarshal error; a decoded value may be the nil slice if the JSON was
null).  On fetch or parse failure it logs and returns an empty non-nil
slice with a nil error. -/
def GetSubjectSuggest (fetched : Except GoStr GoStr)
    (parse : GoStr → Option (GoSlice SuggestItem)) : GoSlice SuggestItem × Option GoStr :=
  match fetched with
  | .error _ => (some [], none)
  | .ok data =>
    match parse data with
    | none => (some [], none)
    | some result => (result, none)

/-- `GetPhotos` (part_005): on fetch/parse failure an empty non-nil slice
and nil error; on success the decoded photo list converted entrywise
(`make` + copy loop, always non-nil). -/
def GetPhotos (fetched : Except GoStr GoStr)
    (parse : GoStr → Option (List PhotoRaw)) : GoSlice Photo × Option GoStr :=
  match fetched with
  | .error _ => (some [], none)
  | .ok data =>
    match parse data with
    | none => (some [], none)
    | some result => (some (result.map fun p => ⟨p.ID, p.Image, p.Thumb⟩), none)

/-- `GetComments` (part_005): same shape as `GetPhotos`. -/
def GetComments (fetched : Except GoStr GoStr)
    (parse : GoStr → Option (List CommentRaw)) : GoSlice Comment × Option GoStr :=
  match fetched with
  | .error _ => (some [], none)
  | .ok data =>
    match parse data with
    | none => (some [], none)
    | some result => (some (result.map fun c => ⟨c.ID, c.Content, ⟨c.AuthorName⟩⟩), none)

/-- `GetRecommendations` (part_005): same shape as `GetPhotos`. -/
def GetRecommendations (fetched : Except GoStr GoStr)
    (parse : GoStr → Option (List RecommendationRaw)) : GoSlice Subject × Option GoStr :=
  match fetched with
  | .error _ => (some [], none)
  | .ok data =>
    match parse data with
    | none => (some [], none)
    | some result => (some (result.map fun r => ⟨r.ID, r.Title, r.Cover, r.Rate⟩), none)

end Service

namespace Service

/-- Witness candidate with no backdrop image (excluded by the matcher). -/
noncomputable def candNoImage : TMDBSearchResult :=
  ⟨1, asciiStr "Dune", [], [], asciiStr "2021-10-22", 9, 0⟩

/-- Witness candidate with a backdrop, exact year and exact title match. -/
noncomputable def candBest : TMDBSearchResult :=
  ⟨2, asciiStr "Dune", [], asciiStr "/d.jpg", asciiStr "2021-10-22", 5, 0⟩

end Service

namespace Handler

/-- `model.CategoryData` with the subject type a parameter. -/
structure CategoryData (σ : Type) where
  name : String
  data : List σ
  deriving DecidableEq

/-- One fan-out slot of `GetLatest`/`GetMovies`/`GetNew`: fetch the
category; on error the slot is the category name with an explicit empty
subject list; the error is only logged, never propagated. -/
def computeSlot {γ ε σ : Type} (getName : γ → String) (fetch : γ → Except ε (List σ))
    (cat : γ) : CategoryData σ :=
  match fetch cat with
  | .error _ => ⟨getName cat, []⟩
  | .ok subjects => ⟨getName cat, subjects⟩

/-- The fan-out: slots start as `make([]CategoryData, n)` (zero values);
each goroutine writes only its own index; `order` lists the indices in
completion order. -/
def runFanout {γ ε σ : Type} (getName : γ → String) (fetch : γ → Except ε (List σ))
    (cats : List γ) (order : List Nat) : List (CategoryData σ) :=
  order.foldl
    (fun acc i =>
      match cats[i]? with
      | some cat => acc.set i (computeSlot getName fetch cat)
      | none => acc)
    (List.replicate cats.length ⟨"", []⟩)

/-- The category table of `GetLatest` (part_001). -/
structure LatestCategory where
  name : String
  typ : String
  tag : String

/-- The six categories of `GetLatest`. -/
def latestCategories : List LatestCategory :=
  [⟨"院线新片", "", "院线新片"⟩, ⟨"最新电影", "", "最新"⟩, ⟨"即将上映", "", "即将上映"⟩,
   ⟨"新剧上线", "tv", "最新"⟩, ⟨"本周口碑榜", "", "本周口碑榜"⟩, ⟨"热门趋势", "", "热门"⟩]

/-- The eight (name, tag) categories of `GetMovies` (part_003). -/
def moviesCategories : List (String × String) :=
  [("热门电影", "热门"), ("豆瓣高分", "豆瓣高分"), ("动作片", "动作"), ("喜剧片", "喜剧"),
   ("科幻片", "科幻"), ("惊悚片", "惊悚"), ("爱情片", "爱情"), ("动画电影", "动画")]

/-- Success-path pagination arithmetic of `fetchWithTagSearch` (new.go):
`total = page*pageSize + pageSize` when the page is full
(`len >= pageSize`), else `(page-1)*pageSize + len`;
`hasMore = len >= pageSize`.  Go `int` as ℤ. -/
def fetchWithTagSearchPagination {σ : Type} (page pageSize : Int) (subjects : List σ) :
    Int × Bool :=
  (if pageSize ≤ (subjects.length : Int)
      then page * pageSize + pageSize
      else (page - 1) * pageSize + (subjects.length : Int),
    decide (pageSize ≤ (subjects.length : Int)))

/-- Success-path pagination arithmetic of `GetCategory` (part_002):
`estimatedTotal` starts at 100 and becomes `pageStart + len` only when the
page is short (`len < limit`); `hasMore = (len == limit)`. -/
def getCategoryPagination {σ : Type} (page limit : Int) (subjects : List σ) : Int × Bool :=
  (if (subjects.length : Int) < limit
      then (page - 1) * limit + (subjects.length : Int)
      else 100,
    decide ((subjects.length : Int) = limit))

end Handler

namespace Repository

/-- Errors from `Cache.Get`/`Cache.Set`: the distinguished `ErrCacheMiss`,
wrapped Redis errors, and marshal/unmarshal failures. -/
inductive CacheError where
  | cacheMiss
  | redisGetErr (e : String)
  | unmarshalErr
  | marshalErr
  deriving DecidableEq

/-- The Redis string keyspace: key to stored serialized value. -/
def RedisDB := String → Option String

/-- Redis SET on a healthy store. -/
def redisSet (db : RedisDB) (key val : String) : RedisDB :=
  fun k => if k = key then some val else db k

/-- Redis DEL on a healthy store. -/
def redisDel (db : RedisDB) (key : String) : RedisDB :=
  fun k => if k = key then none else db k

/-- `Cache.Get` given the raw Redis reply (`.error` = connectivity error,
`.ok none` = redis.Nil, `.ok (some val)` = stored value): `ErrCacheMiss`
exactly on redis.Nil; other failures surface as distinct errors. -/
def cacheGet {α : Type} (reply : Except String (Option String))
    (unmarshal : String → Option α) : Except CacheError α :=
  match reply with
  | .error e => .error (.redisGetErr e)
  | .ok none => .error .cacheMiss
  | .ok (some val) =>
    match unmarshal val with
    | none => .error .unmarshalErr
    | some v => .ok v

/-- `Cache.Get` against a healthy store. -/
def cacheGetDB {α : Type} (db : RedisDB) (key : String) (unmarshal : String → Option α) :
    Except CacheError α :=
  cacheGet (.ok (db key)) unmarshal

/-- `Cache.Set` against a healthy store: marshal the value, then write it
(TTL expiry is not modelled; the round-trip claim excludes expiry). -/
def cacheSetDB {α : Type} (db : RedisDB) (key : String) (value : α)
    (marshal : α → Option String) : Except CacheError RedisDB :=
  match marshal value with
  | none => .error .marshalErr
  | some data => .ok (redisSet db key data)

/-- `Cache.Delete` against a healthy store. -/
def cacheDeleteDB (db : RedisDB) (key : String) : RedisDB := redisDel db key

/-- Redis state touched by the metrics recorder: hashes (assoc lists of
field to numeric value), plain numeric keys, and the `metrics:paths` set.
Expire TTLs are not modelled (the claim is within one retention window). -/
structure RedisState where
  hashes : String → List (String × ℚ)
  numbers : String → Option ℚ
  paths : List String

/-- Look up a hash field. -/
def hashGet : List (String × ℚ) → String → Option ℚ
  | [], _ => none
  | (g, w) :: rest, f => if g = f then some w else hashGet rest f

/-- Set a hash field, replacing an existing entry in place. -/
def hashSet : List (String × ℚ) → String → ℚ → List (String × ℚ)
  | [], f, v => [(f, v)]
  | (g, w) :: rest, f, v =>
    if g = f then (f, v) :: rest else (g, w) :: hashSet rest f v

/-- Redis HINCRBY / HINCRBYFLOAT (missing field counts as 0). -/
def hIncrBy (st : RedisState) (key field : String) (n : ℚ) : RedisState :=
  { st with hashes := fun k => if k = key
      then hashSet (st.hashes key) field ((hashGet (st.hashes key) field).getD 0 + n)
      else st.hashes k }

/-- Redis HSETNX: set the field only when it is absent. -/
def hSetNX (st : RedisState) (key field : String) (v : ℚ) : RedisState :=
  { st with hashes := fun k => if k = key
      then (if (hashGet (st.hashes key) field).isSome then st.hashes key
        else hashSet (st.hashes key) field v)
      else st.hashes k }

/-- Redis INCR / INCRBYFLOAT on a plain key (missing counts as 0). -/
def incrBy (st : RedisState) (key : String) (n : ℚ) : RedisState :=
  { st with numbers := fun k => if k = key
      then some ((st.numbers key).getD 0 + n)
      else st.numbers k }

/-- Redis SADD into the `metrics:paths` set. -/
def sAdd (st : RedisState) (member : String) : RedisState :=
  { st with paths := if member ∈ st.paths then st.paths else st.paths ++ [member] }

/-- `RecordAPICall` (part_000): the pipelined Redis operations, in pipeline
order.  `today`/`hour` stand for the formatted timestamps. -/
def RecordAPICall (today hour path : String) (statusCode : Int) (latencyMs : ℚ)
    (cacheHit : Bool) (st : RedisState) : RedisState :=
  let pathKey := "metrics:path:" ++ path
  let st := hIncrBy st pathKey "total" 1
  let st := hIncrBy st pathKey "latency_sum" latencyMs
  let st := hSetNX st pathKey "min_latency" latencyMs
  let st := hSetNX st pathKey "max_latency" latencyMs
  let st := if 200 ≤ statusCode ∧ statusCode < 400 then hIncrBy st pathKey "success" 1
    else hIncrBy st pathKey "error" 1
  let st := if cacheHit then hIncrBy st pathKey "cache_hits" 1
    else hIncrBy st pathKey "cache_misses" 1
  let dailyKey := "metrics:daily:" ++ today
  let st := hIncrBy st dailyKey "total" 1
  let st := hIncrBy st dailyKey "latency_sum" latencyMs
  let hourlyKey := "metrics:hourly:" ++ hour
  let st := hIncrBy st hourlyKey "total" 1
  let st := incrBy st "metrics:global:total" 1
  let st := incrBy st "metrics:global:latency_sum" latencyMs
  sAdd st path

/-- `APIStats` (part_000), numeric fields as ℚ. -/
structure APIStats where
  Path : String
  TotalCalls : ℚ
  SuccessCalls : ℚ
  ErrorCalls : ℚ
  AvgLatencyMs : ℚ
  MaxLatencyMs : ℚ
  MinLatencyMs : ℚ
  CacheHits : ℚ
  CacheMisses : ℚ
  deriving DecidableEq

/-- `GetAPIStats` (part_000): HGETALL of the path hash; an empty hash gives
zero stats; missing or unparsable fields parse as 0 (strconv errors are
ignored); average = latency_sum / total when total > 0. -/
def GetAPIStats (st : RedisState) (path : String) : APIStats :=
  let h := st.hashes ("metrics:path:" ++ path)
  if h = [] then ⟨path, 0, 0, 0, 0, 0, 0, 0, 0⟩
  else
    let total := (hashGet h "total").getD 0
    let latencySum := (hashGet h "latency_sum").getD 0
    ⟨path, total,
      (hashGet h "success").getD 0,
      (hashGet h "error").getD 0,
      if 0 < total then latencySum / total else 0,
      (hashGet h "max_latency").getD 0,
      (hashGet h "min_latency").getD 0,
      (hashGet h "cache_hits").getD 0,
      (hashGet h "cache_misses").getD 0⟩

/-- The empty Redis state. -/
def emptyRedis : RedisState := ⟨fun _ => [], fun _ => none, []⟩

end Repository

namespace Httpclient

/-- Error values produced inside `Client.Fetch`. -/
inductive GoError where
  | netErr (msg : String)
  | httpStatus (status : Nat)
  | readErr (msg : String)
  | allRetriesFailed (inner : Option GoError)

/-- One attempt's upstream outcome: a transport failure of
`httpClient.Do`, a response with a status and fully-readable body, or a
200 response whose body read fails. -/
inductive Outcome where
  | netError (e : String)
  | resp (status : Nat) (body : List Nat)
  | readError (e : String)
  deriving DecidableEq

/-- The error recorded in `lastErr` for a failing attempt. -/
def errOf : Outcome → GoError
  | .netError e => .netErr e
  | .resp status _ => .httpStatus status
  | .readError e => .readErr e

/-- Result of `Client.Fetch`: returned body, returned error, number of
HTTP requests issued, and the backoff sleeps performed as
(attempt slept after, nanoseconds) pairs in order. -/
structure FetchResult where
  data : Option (List Nat)
  error : Option GoError
  requests : Nat
  delays : List (Nat × Nat)

/-- The retry loop of `Client.Fetch` with `fuel` remaining attempts
(`fuel = retries - attempt + 1`).  Network errors and HTTP 403/429 sleep
`retryDelay * 2^(attempt-1)` when `attempt < retries` (i.e. `0 < fuel`
after consuming this attempt); other non-200 statuses and body-read
errors retry immediately; a 200 with a readable body returns it. -/
def fetchFrom (oracle : Nat → Outcome) (retryDelay : Nat) :
    Nat → Nat → Option GoError → FetchResult
  | 0, _, lastErr => ⟨none, some (.allRetriesFailed lastErr), 0, []⟩
  | fuel + 1, attempt, _ =>
    match oracle attempt with
    | .netError e =>
      let rest := fetchFrom oracle retryDelay fuel (attempt + 1) (some (.netErr e))
      ⟨rest.data, rest.error, rest.requests + 1,
        (if 0 < fuel then [(attempt, retryDelay * 2 ^ (attempt - 1))] else []) ++ rest.delays⟩
    | .resp status body =>
      if status = 403 ∨ status = 429 then
        let rest := fetchFrom oracle retryDelay fuel (attempt + 1) (some (.httpStatus status))
        ⟨rest.data, rest.error, rest.requests + 1,
          (if 0 < fuel then [(attempt, retryDelay * 2 ^ (attempt - 1))] else []) ++ rest.delays⟩
      else if status ≠ 200 then
        let rest := fetchFrom oracle retryDelay fuel (attempt + 1) (some (.httpStatus status))
        ⟨rest.data, rest.error, rest.requests + 1, rest.delays⟩
      else ⟨some body, none, 1, []⟩
    | .readError e =>
      let rest := fetchFrom oracle retryDelay fuel (attempt + 1) (some (.readErr e))
      ⟨rest.data, rest.error, rest.requests + 1, rest.delays⟩

/-- `Client.Fetch` as configured by `NewClient`: retries = 3,
retryDelay = 1s = 10^9 ns, starting at attempt 1 with nil `lastErr`. -/
def Fetch (oracle : Nat → Outcome) : FetchResult :=
  fetchFrom oracle 1000000000 3 1 none

/-- The failure kinds named by claim C1: transport error or non-200
status. -/
def isFailure : Outcome → Bool
  | .netError _ => true
  | .resp status _ => decide (status ≠ 200)
  | .readError _ => false

/-- Outcomes after which the loop continues to another attempt (everything
except a 200 with a readable body). -/
def continuesAfter : Outcome → Bool
  | .netError _ => true
  | .resp status _ => decide (status ≠ 200)
  | .readError _ => true

/-- Outcomes that trigger the backoff sleep: transport error or HTTP
403/429. -/
def isSlowFailure : Outcome → Bool
  | .netError _ => true
  | .resp status _ => status = 403 || status = 429
  | .readError _ => false

end Httpclient

-- ===================== Theorems =====================

namespace Service

theorem getD_eq_41_lt {t : GoStr} {j : Nat} (h : t.getD j 0 = 41) : j < t.length := by
  by_contra hlt
  rw [List.getD_eq_default _ _ (by omega)] at h
  exact absurd h (by decide)

theorem hitAt_iff_patternAt {t : GoStr} {j : Nat} :
    hitAt t j ↔ 5 ≤ j ∧ patternAt t (j - 5) := by
  constructor
  · rintro ⟨h4, h41, ⟨h5, h40⟩, hlen, hdig⟩
    have hj : j < t.length := getD_eq_41_lt h41
    refine ⟨h5, ⟨by omega, ?_, ?_, ?_⟩⟩
    · exact h40
    · have : j - 5 + 5 = j := by omega
      rw [this]; exact h41
    · have h1 : j - 5 + 1 = j - 4 := by omega
      have h2 : j - (j - 4) = 4 := by omega
      rw [h1]
      rw [h2] at hdig
      exact hdig
  · rintro ⟨h5, hlt, h40, h41, hdig⟩
    have hj : j - 5 + 5 = j := by omega
    rw [hj] at hlt h41
    have h1 : j - 5 + 1 = j - 4 := by omega
    rw [h1] at hdig
    refine ⟨by omega, h41, ⟨h5, h40⟩, ?_, ?_⟩
    · have h2 : j - (j - 4) = 4 := by omega
      rw [h2, List.length_take, List.length_drop]
      omega
    · have h2 : j - (j - 4) = 4 := by omega
      rw [h2]; exact hdig

theorem extractScan_eq_nil {t : GoStr} :
    ∀ i, (∀ j, j ≤ i → ¬ hitAt t j) → extractScan t i = [] := by
  intro i
  induction i with
  | zero => intro _; rfl
  | succ i ih =>
    intro h
    have hni : ¬ hitAt t (i + 1) := h (i + 1) le_rfl
    have hrec : extractScan t i = [] := ih fun j hj => h j (by omega)
    simp only [extractScan]
    split_ifs with c1 c2 c3 c4
    · exact absurd ⟨by omega, c2, c3, c4⟩ hni
    · exact hrec
    · exact hrec
    · exact hrec
    · rfl

theorem extractScan_eq_year {t : GoStr} {j : Nat} (hj : hitAt t j) :
    ∀ i, j ≤ i → (∀ j', j < j' → j' ≤ i → ¬ hitAt t j') →
      extractScan t i = (t.drop (j - 4)).take (j - (j - 4)) := by
  intro i
  induction i with
  | zero =>
    intro h _
    obtain ⟨h4, -⟩ := hj
    omega
  | succ i ih =>
    intro hle hmax
    rcases Nat.lt_or_ge j (i + 1) with hlt | hge
    · have hni : ¬ hitAt t (i + 1) := hmax (i + 1) hlt le_rfl
      have hrec := ih (by omega) fun j' h1 h2 => hmax j' h1 (by omega)
      simp only [extractScan]
      split_ifs with c1 c2 c3 c4
      · exact absurd ⟨by omega, c2, c3, c4⟩ hni
      · exact hrec
      · exact hrec
      · exact hrec
      · obtain ⟨h4, -⟩ := hj
        omega
    · have hje : j = i + 1 := by omega
      subst hje
      obtain ⟨h4, h41, h40, hy⟩ := hj
      simp only [extractScan]
      split_ifs
      rfl

theorem removeScan_eq_self {t : GoStr} :
    ∀ i, (∀ j, j ≤ i → ¬ hitAt t j) → removeScan t i = t := by
  intro i
  induction i with
  | zero => intro _; rfl
  | succ i ih =>
    intro h
    have hni : ¬ hitAt t (i + 1) := h (i + 1) le_rfl
    have hrec : removeScan t i = t := ih fun j hj => h j (by omega)
    simp only [removeScan]
    split_ifs with c1 c2 c3 c4
    · exact absurd ⟨by omega, c2, c3, c4⟩ hni
    · exact hrec
    · exact hrec
    · exact hrec
    · rfl

theorem removeScan_eq_trim {t : GoStr} {j : Nat} (hj : hitAt t j) :
    ∀ i, j ≤ i → (∀ j', j < j' → j' ≤ i → ¬ hitAt t j') →
      removeScan t i = trimSpace (t.take (j - 5)) := by
  intro i
  induction i with
  | zero =>
    intro h _
    obtain ⟨h4, -⟩ := hj
    omega
  | succ i ih =>
    intro hle hmax
    rcases Nat.lt_or_ge j (i + 1) with hlt | hge
    · have hni : ¬ hitAt t (i + 1) := hmax (i + 1) hlt le_rfl
      have hrec := ih (by omega) fun j' h1 h2 => hmax j' h1 (by omega)
      simp only [removeScan]
      split_ifs with c1 c2 c3 c4
      · exact absurd ⟨by omega, c2, c3, c4⟩ hni
      · exact hrec
      · exact hrec
      · exact hrec
      · obtain ⟨h4, -⟩ := hj
        omega
    · have hje : j = i + 1 := by omega
      subst hje
      obtain ⟨h4, h41, h40, hy⟩ := hj
      simp only [removeScan]
      split_ifs
      rfl

theorem trimSpace_length_le (l : GoStr) : (trimSpace l).length ≤ l.length := by
  unfold trimSpace
  calc ((l.dropWhile isSpaceByte).reverse.dropWhile isSpaceByte).reverse.length
      = ((l.dropWhile isSpaceByte).reverse.dropWhile isSpaceByte).length := by
        rw [List.length_reverse]
    _ ≤ (l.dropWhile isSpaceByte).reverse.length := (List.dropWhile_sublist _).length_le
    _ = (l.dropWhile isSpaceByte).length := by rw [List.length_reverse]
    _ ≤ l.length := (List.dropWhile_sublist _).length_le

end Service


/-- C10: for every title, `extractYearFromTitle` returns either the empty
string or a 4-byte all-digit substring of the title that appears immediately
enclosed in ASCII parentheses; `removeYearFromTitle` returns the title
unchanged exactly when `extractYearFromTitle` returns the empty string, and
when a year is found it returns the prefix of the title before the rightmost
"(yyyy)" (a strict prefix, hence shorter than the title), trimmed of
surrounding whitespace. -/
theorem Service.extractYear_removeYear_contract (t : GoStr) :
    (extractYearFromTitle t = [] ∨
      ((extractYearFromTitle t).length = 4 ∧ isDigits (extractYearFromTitle t) = true ∧
        ∃ s, patternAt t s ∧ extractYearFromTitle t = yearAt t s)) ∧
    (removeYearFromTitle t = t ↔ extractYearFromTitle t = []) ∧
    (extractYearFromTitle t ≠ [] →
      ∃ s, patternAt t s ∧ (∀ s', s < s' → ¬ patternAt t s') ∧
        extractYearFromTitle t = yearAt t s ∧
        removeYearFromTitle t = trimSpace (t.take s) ∧
        (t.take s).length < t.length ∧ removeYearFromTitle t ≠ t) := by
  by_cases hex : ∃ j, Service.hitAt t j
  · obtain ⟨j, hj⟩ := hex
    have hjlt : j < t.length := getD_eq_41_lt hj.2.1
    have hjle : j ≤ t.length - 1 := by omega
    have hj0 : hitAt t (Nat.findGreatest (hitAt t) (t.length - 1)) :=
      Nat.findGreatest_spec hjle hj
    set j0 := Nat.findGreatest (hitAt t) (t.length - 1) with hj0def
    have hmax : ∀ j', j0 < j' → ¬ hitAt t j' := by
      intro j' hlt hj'
      have hb : j' ≤ t.length - 1 := by
        have := getD_eq_41_lt hj'.2.1
        omega
      exact Nat.findGreatest_is_greatest hlt hb hj'
    have hj0le : j0 ≤ t.length - 1 := Nat.findGreatest_le _
    have hext : extractYearFromTitle t = (t.drop (j0 - 4)).take (j0 - (j0 - 4)) :=
      extractScan_eq_year hj0 _ hj0le fun j' h1 _ => hmax j' h1
    have hrem : removeYearFromTitle t = trimSpace (t.take (j0 - 5)) :=
      removeScan_eq_trim hj0 _ hj0le fun j' h1 _ => hmax j' h1
    obtain ⟨h5, hpat⟩ := hitAt_iff_patternAt.mp hj0
    have e1 : j0 - 4 = (j0 - 5) + 1 := by omega
    have e2 : j0 - (j0 - 4) = 4 := by omega
    have hyear : extractYearFromTitle t = yearAt t (j0 - 5) := by
      rw [hext, e2, e1]; rfl
    have hlen4 : (extractYearFromTitle t).length = 4 := by
      rw [hext]; exact hj0.2.2.2.1
    have hdig : isDigits (extractYearFromTitle t) = true := by
      rw [hext]; exact hj0.2.2.2.2
    have hne : extractYearFromTitle t ≠ [] := by
      intro h
      rw [h] at hlen4
      exact absurd hlen4 (by decide)
    have hsmax : ∀ s', j0 - 5 < s' → ¬ patternAt t s' := by
      intro s' hlt hp
      have h' : hitAt t (s' + 5) := by
        refine hitAt_iff_patternAt.mpr ⟨by omega, ?_⟩
        have : s' + 5 - 5 = s' := by omega
        rw [this]
        exact hp
      exact hmax (s' + 5) (by omega) h'
    have htlen : (t.take (j0 - 5)).length < t.length := by
      rw [List.length_take]
      have : j0 - 5 + 5 < t.length := hpat.1
      omega
    have hrne : removeYearFromTitle t ≠ t := by
      intro h
      have h1 : (removeYearFromTitle t).length ≤ (t.take (j0 - 5)).length := by
        rw [hrem]; exact trimSpace_length_le _
      rw [h] at h1
      omega
    refine ⟨Or.inr ⟨hlen4, hdig, ⟨j0 - 5, hpat, hyear⟩⟩, iff_of_false hrne hne,
      fun _ => ⟨j0 - 5, hpat, hsmax, hyear, hrem, htlen, hrne⟩⟩
  · push_neg at hex
    have he : extractYearFromTitle t = [] := extractScan_eq_nil _ fun j _ => hex j
    have hr : removeYearFromTitle t = t := removeScan_eq_self _ fun j _ => hex j
    exact ⟨Or.inl he, iff_of_true hr he, fun hne => absurd he hne⟩


/-- Witness for the year-extraction contract at the concrete title
"Dune (2021)". -/
theorem Service.extractYear_removeYear_contract_witness :
    Service.extractYearFromTitle (asciiStr "Dune (2021)") ≠ [] ∧
    ∃ s, Service.patternAt (asciiStr "Dune (2021)") s ∧
      (∀ s', s < s' → ¬ Service.patternAt (asciiStr "Dune (2021)") s') ∧
      Service.extractYearFromTitle (asciiStr "Dune (2021)") =
        Service.yearAt (asciiStr "Dune (2021)") s ∧
      Service.removeYearFromTitle (asciiStr "Dune (2021)") =
        Service.trimSpace ((asciiStr "Dune (2021)").take s) ∧
      ((asciiStr "Dune (2021)").take s).length < (asciiStr "Dune (2021)").length ∧
      Service.removeYearFromTitle (asciiStr "Dune (2021)") ≠ asciiStr "Dune (2021)" :=
  ⟨by decide,
    (Service.extractYear_removeYear_contract (asciiStr "Dune (2021)")).2.2 (by decide)⟩

namespace Service

theorem getNextKey_ne (apiKeys : List String) (h : apiKeys.length ≠ 0) (st : Nat) :
    getNextKey apiKeys st =
      (apiKeys.getD ((((st + 1) % 2 ^ 64) + (2 ^ 64 - 1)) % 2 ^ 64 % apiKeys.length) "",
        (st + 1) % 2 ^ 64) := by
  unfold getNextKey
  rw [if_neg h]

theorem runKeys_succ (apiKeys : List String) (k : Nat) :
    runKeys apiKeys (k + 1) = ((getNextKey apiKeys (runKeys apiKeys k).1).2,
      (getNextKey apiKeys (runKeys apiKeys k).1).1) := rfl

theorem pow64_eq : (2 : Nat) ^ 64 = 18446744073709551616 := by norm_num

theorem runKeys_state (apiKeys : List String) (h : apiKeys.length ≠ 0) :
    ∀ k, k ≤ 2 ^ 64 → (runKeys apiKeys k).1 = k % 2 ^ 64 := by
  intro k
  induction k with
  | zero => intro _; simp [runKeys]
  | succ k ih =>
    intro hk
    have hst := ih (by omega)
    rw [runKeys_succ, getNextKey_ne apiKeys h, hst]
    rw [pow64_eq] at hst ⊢
    rw [pow64_eq] at hk
    simp only
    omega

end Service


namespace Service

theorem runKeys_result (apiKeys : List String) (k : Nat) (h : apiKeys.length ≠ 0)
    (h1 : 1 ≤ k) (h2 : k ≤ 2 ^ 64) :
    (runKeys apiKeys k).2 = apiKeys.getD ((k - 1) % apiKeys.length) "" := by
  obtain ⟨m, rfl⟩ : ∃ m, k = m + 1 := ⟨k - 1, by omega⟩
  rw [runKeys_succ, getNextKey_ne apiKeys h, runKeys_state apiKeys h m (by omega)]
  simp only
  have he : (((m % 2 ^ 64 + 1) % 2 ^ 64) + (2 ^ 64 - 1)) % 2 ^ 64 = m := by
    rw [pow64_eq] at h2 ⊢
    omega
  rw [he]
  have hm1 : m + 1 - 1 = m := by omega
  rw [hm1]

end Service

/-- C7: with a non-empty key pool of size n, the k-th sequential call to
`getNextKey` (from a fresh counter, k counting from 1 and within the uint64
range) returns `apiKeys[(k-1) % n]`; with an empty pool `getNextKey` returns
the empty string and leaves the counter unchanged, `IsConfigured` is false,
and `SearchMovieBackdrop` returns the "not configured" error without issuing
any HTTP request. -/
theorem Service.key_rotation_contract :
    (∀ (apiKeys : List String) (k : Nat), apiKeys.length ≠ 0 → 1 ≤ k → k ≤ 2 ^ 64 →
      (Service.runKeys apiKeys k).2 = apiKeys.getD ((k - 1) % apiKeys.length) "") ∧
    (∀ st, Service.getNextKey [] st = ("", st)) ∧
    Service.IsConfigured [] = false ∧
    (∀ keyIndex baseURL imageBase queryEscape doRequest parse title year,
      Service.SearchMovieBackdrop [] keyIndex baseURL imageBase queryEscape doRequest
          parse title year =
        (([], some Service.TMDBError.notConfigured), 0, keyIndex)) := by
  refine ⟨Service.runKeys_result, fun st => rfl, rfl, ?_⟩
  intro keyIndex baseURL imageBase queryEscape doRequest parse title year
  rfl

/-- Witness for the key-rotation contract: a two-key pool, third call
returns the first key again. -/
theorem Service.key_rotation_contract_witness :
    (Service.runKeys ["keyA", "keyB"] 3).2 =
      ["keyA", "keyB"].getD ((3 - 1) % (["keyA", "keyB"] : List String).length) "" ∧
    (["keyA", "keyB"] : List String).length ≠ 0 ∧ 1 ≤ 3 ∧ 3 ≤ 2 ^ 64 :=
  ⟨Service.key_rotation_contract.1 ["keyA", "keyB"] 3 (by decide) (by decide)
      (by rw [Service.pow64_eq]; omega),
    by decide, by decide, by rw [Service.pow64_eq]; omega⟩


namespace Service

theorem GetSubjectSuggest_spec (fetched : Except GoStr GoStr)
    (parse : GoStr → Option (GoSlice SuggestItem)) :
    (GetSubjectSuggest fetched parse).2 = none ∧
    (∀ e, fetched = .error e → (GetSubjectSuggest fetched parse).1 = some []) ∧
    (∀ d, fetched = .ok d → parse d = none → (GetSubjectSuggest fetched parse).1 = some []) := by
  cases fetched with
  | error e =>
    refine ⟨rfl, fun _ _ => rfl, ?_⟩
    intro d hd
    simp at hd
  | ok d =>
    refine ⟨?_, ?_, ?_⟩
    · cases hp : parse d <;> simp [GetSubjectSuggest, hp]
    · intro e he
      simp at he
    · intro d' hd hpn
      injection hd with h
      subst h
      simp [GetSubjectSuggest, hpn]

theorem GetPhotos_spec (fetched : Except GoStr GoStr)
    (parse : GoStr → Option (List PhotoRaw)) :
    (GetPhotos fetched parse).2 = none ∧
    (∀ e, fetched = .error e → (GetPhotos fetched parse).1 = some []) ∧
    (∀ d, fetched = .ok d → parse d = none → (GetPhotos fetched parse).1 = some []) := by
  cases fetched with
  | error e =>
    refine ⟨rfl, fun _ _ => rfl, ?_⟩
    intro d hd
    simp at hd
  | ok d =>
    refine ⟨?_, ?_, ?_⟩
    · cases hp : parse d <;> simp [GetPhotos, hp]
    · intro e he
      simp at he
    · intro d' hd hpn
      injection hd with h
      subst h
      simp [GetPhotos, hpn]

theorem GetComments_spec (fetched : Except GoStr GoStr)
    (parse : GoStr → Option (List CommentRaw)) :
    (GetComments fetched parse).2 = none ∧
    (∀ e, fetched = .error e → (GetComments fetched parse).1 = some []) ∧
    (∀ d, fetched = .ok d → parse d = none → (GetComments fetched parse).1 = some []) := by
  cases fetched with
  | error e =>
    refine ⟨rfl, fun _ _ => rfl, ?_⟩
    intro d hd
    simp at hd
  | ok d =>
    refine ⟨?_, ?_, ?_⟩
    · cases hp : parse d <;> simp [GetComments, hp]
    · intro e he
      simp at he
    · intro d' hd hpn
      injection hd with h
      subst h
      simp [GetComments, hpn]

theorem GetRecommendations_spec (fetched : Except GoStr GoStr)
    (parse : GoStr → Option (List RecommendationRaw)) :
    (GetRecommendations fetched parse).2 = none ∧
    (∀ e, fetched = .error e → (GetRecommendations fetched parse).1 = some []) ∧
    (∀ d, fetched = .ok d → parse d = none → (GetRecommendations fetched parse).1 = some []) := by
  cases fetched with
  | error e =>
    refine ⟨rfl, fun _ _ => rfl, ?_⟩
    intro d hd
    simp at hd
  | ok d =>
    refine ⟨?_, ?_, ?_⟩
    · cases hp : parse d <;> simp [GetRecommendations, hp]
    · intro e he
      simp at he
    · intro d' hd hpn
      injection hd with h
      subst h
      simp [GetRecommendations, hpn]

end Service

/-- C9: `GetSubjectSuggest`, `GetPhotos`, `GetComments` and
`GetRecommendations` always return a nil error, and on every underlying
fetch failure or JSON-parse failure they return an empty non-nil slice, so
no caller at this interface can observe an enrichment error. -/
theorem Service.enrichment_never_errors :
    (∀ fetched parse, (Service.GetSubjectSuggest fetched parse).2 = none ∧
      (∀ e, fetched = .error e → (Service.GetSubjectSuggest fetched parse).1 = some []) ∧
      (∀ d, fetched = .ok d → parse d = none →
        (Service.GetSubjectSuggest fetched parse).1 = some [])) ∧
    (∀ fetched parse, (Service.GetPhotos fetched parse).2 = none ∧
      (∀ e, fetched = .error e → (Service.GetPhotos fetched parse).1 = some []) ∧
      (∀ d, fetched = .ok d → parse d = none →
        (Service.GetPhotos fetched parse).1 = some [])) ∧
    (∀ fetched parse, (Service.GetComments fetched parse).2 = none ∧
      (∀ e, fetched = .error e → (Service.GetComments fetched parse).1 = some []) ∧
      (∀ d, fetched = .ok d → parse d = none →
        (Service.GetComments fetched parse).1 = some [])) ∧
    (∀ fetched parse, (Service.GetRecommendations fetched parse).2 = none ∧
      (∀ e, fetched = .error e → (Service.GetRecommendations fetched parse).1 = some []) ∧
      (∀ d, fetched = .ok d → parse d = none →
        (Service.GetRecommendations fetched parse).1 = some [])) :=
  ⟨Service.GetSubjectSuggest_spec, Service.GetPhotos_spec,
    Service.GetComments_spec, Service.GetRecommendations_spec⟩

/-- Witness for the enrichment error-swallowing contract at concrete
failing inputs. -/
theorem Service.enrichment_never_errors_witness :
    (Service.GetSubjectSuggest (Except.error (asciiStr "boom")) (fun _ => none)).2 = none ∧
    (Service.GetSubjectSuggest (Except.error (asciiStr "boom")) (fun _ => none)).1 = some [] ∧
    (Service.GetPhotos (Except.ok (asciiStr "junk")) (fun _ => none)).1 = some [] ∧
    (Service.GetComments (Except.error (asciiStr "boom")) (fun _ => none)).2 = none ∧
    (Service.GetRecommendations (Except.error (asciiStr "boom")) (fun _ => none)).2 = none :=
  ⟨(Service.enrichment_never_errors.1 _ _).1,
    (Service.enrichment_never_errors.1 _ _).2.1 _ rfl,
    (Service.enrichment_never_errors.2.1 _ _).2.2 _ rfl rfl,
    (Service.enrichment_never_errors.2.2.1 _ _).1,
    (Service.enrichment_never_errors.2.2.2 _ _).1⟩

/-- C8 counterexample: in `GetCategory` a full page (20 items, limit 20,
page 1) reports the fixed estimate 100 as total, not
page*limit + limit = 40 as the claim states for every category listing. -/
theorem Handler.pagination_total_counterexample :
    (Handler.getCategoryPagination 1 20 (List.replicate 20 (0 : Nat))).1 = 100 ∧
    (1 : Int) * 20 + 20 = 40 ∧ (100 : Int) ≠ 40 := by
  refine ⟨by decide, by norm_num, by norm_num⟩

/-- C8 (amended): `fetchWithTagSearch` reports total p*s + s and
hasMore = true on a full page (at least s items), else total
(p-1)*s + count and hasMore = false, as the claim states; `GetCategory`
instead reports the fixed estimate 100 as total on a full page, its short
page total is (p-1)*s + count with hasMore = false, and its hasMore is
true exactly when the count equals the limit. -/
theorem Handler.pagination_total_contract {σ : Type} (page pageSize : Int)
    (subjects : List σ) :
    ((pageSize ≤ (subjects.length : Int) →
        (Handler.fetchWithTagSearchPagination page pageSize subjects).1 =
          page * pageSize + pageSize ∧
        (Handler.fetchWithTagSearchPagination page pageSize subjects).2 = true) ∧
      ((subjects.length : Int) < pageSize →
        (Handler.fetchWithTagSearchPagination page pageSize subjects).1 =
          (page - 1) * pageSize + (subjects.length : Int) ∧
        (Handler.fetchWithTagSearchPagination page pageSize subjects).2 = false)) ∧
    ((pageSize ≤ (subjects.length : Int) →
        (Handler.getCategoryPagination page pageSize subjects).1 = 100) ∧
      ((subjects.length : Int) < pageSize →
        (Handler.getCategoryPagination page pageSize subjects).1 =
          (page - 1) * pageSize + (subjects.length : Int) ∧
        (Handler.getCategoryPagination page pageSize subjects).2 = false) ∧
      ((Handler.getCategoryPagination page pageSize subjects).2 = true ↔
        (subjects.length : Int) = pageSize)) := by
  refine ⟨⟨fun h => ?_, fun h => ?_⟩, ⟨fun h => ?_, fun h => ?_, ?_⟩⟩
  · simp [Handler.fetchWithTagSearchPagination, h]
  · simp [Handler.fetchWithTagSearchPagination,
      show ¬ pageSize ≤ (subjects.length : Int) by omega]
  · simp [Handler.getCategoryPagination,
      show ¬ (subjects.length : Int) < pageSize by omega]
  · simp [Handler.getCategoryPagination, h,
      show ¬ (subjects.length : Int) = pageSize by omega]
  · simp [Handler.getCategoryPagination]

/-- Witness for the amended pagination contract: full page of 3 with
pageSize 3 on page 2. -/
theorem Handler.pagination_total_contract_witness :
    (Handler.fetchWithTagSearchPagination 2 3 [0, 1, 2]).1 = 2 * 3 + 3 ∧
    (Handler.getCategoryPagination 2 3 [0, 1, 2]).1 = 100 ∧
    (3 : Int) ≤ (([0, 1, 2] : List Nat).length : Int) :=
  ⟨((Handler.pagination_total_contract 2 3 ([0, 1, 2] : List Nat)).1.1 (by decide)).1,
    (Handler.pagination_total_contract 2 3 ([0, 1, 2] : List Nat)).2.1 (by decide),
    by decide⟩


/-- C6: against a healthy store, `Set(K,V)` followed by `Get(K)` (with no
intervening write or expiry) yields `V` whenever the JSON encoding of `V`
round-trips; after `Delete(K)`, `Get(K)` returns the distinguished
`ErrCacheMiss`; and `cacheGet` returns `ErrCacheMiss` exactly when the
store replies redis.Nil (absent key) — never for a connectivity error,
which surfaces as a different error. -/
theorem Repository.cache_roundtrip_contract {α : Type}
    (db : Repository.RedisDB) (key : String) (value : α)
    (marshal : α → Option String) (unmarshal : String → Option α) :
    (∀ data db', marshal value = some data → unmarshal data = some value →
      Repository.cacheSetDB db key value marshal = .ok db' →
      Repository.cacheGetDB db' key unmarshal = .ok value) ∧
    (Repository.cacheGetDB (Repository.cacheDeleteDB db key) key unmarshal =
      .error .cacheMiss) ∧
    (∀ reply : Except String (Option String),
      Repository.cacheGet reply unmarshal = .error .cacheMiss ↔ reply = .ok none) := by
  refine ⟨?_, ?_, ?_⟩
  · intro data db' hm hu hset
    rw [Repository.cacheSetDB, hm] at hset
    injection hset with h
    subst h
    simp [Repository.cacheGetDB, Repository.cacheGet, Repository.redisSet, hu]
  · simp [Repository.cacheGetDB, Repository.cacheGet, Repository.cacheDeleteDB,
      Repository.redisDel]
  · intro reply
    cases reply with
    | error e => simp [Repository.cacheGet]
    | ok v =>
      cases v with
      | none => simp [Repository.cacheGet]
      | some s =>
        cases hu : unmarshal s <;> simp [Repository.cacheGet, hu]

/-- Witness for the cache round-trip contract: Nat values serialized with a
round-tripping encoding, key "douban:latest:all", value 42, on an initially
empty store. -/
theorem Repository.cache_roundtrip_contract_witness :
    Repository.cacheGetDB
        (Repository.redisSet (fun _ => none) "douban:latest:all"
          (String.mk (List.replicate 42 'x')))
        "douban:latest:all" (fun s => some s.data.length) = .ok 42 ∧
    Repository.cacheGetDB
        (Repository.cacheDeleteDB
          (Repository.redisSet (fun _ => none) "douban:latest:all"
            (String.mk (List.replicate 42 'x')))
          "douban:latest:all")
        "douban:latest:all" (fun s => some s.data.length) =
      .error Repository.CacheError.cacheMiss :=
  ⟨(Repository.cache_roundtrip_contract (fun _ => none) "douban:latest:all" 42
        (fun n => some (String.mk (List.replicate n 'x'))) (fun s => some s.data.length)).1
      (String.mk (List.replicate 42 'x'))
      (Repository.redisSet (fun _ => none) "douban:latest:all"
        (String.mk (List.replicate 42 'x')))
      rfl (by decide) rfl,
    (Repository.cache_roundtrip_contract
        (Repository.redisSet (fun _ => none) "douban:latest:all"
          (String.mk (List.replicate 42 'x')))
        "douban:latest:all" 42
        (fun n => some (String.mk (List.replicate n 'x')))
        (fun s => some s.data.length)).2.1⟩

namespace Repository

theorem hIncrBy_hashes_eq (st : RedisState) (key f : String) (n : ℚ) :
    (hIncrBy st key f n).hashes key =
      hashSet (st.hashes key) f ((hashGet (st.hashes key) f).getD 0 + n) := by
  simp [hIncrBy]

theorem hIncrBy_hashes_ne (st : RedisState) {key key' : String} (f : String) (n : ℚ)
    (h : key ≠ key') : (hIncrBy st key' f n).hashes key = st.hashes key := by
  simp [hIncrBy, h]

theorem hSetNX_hashes_eq (st : RedisState) (key f : String) (v : ℚ) :
    (hSetNX st key f v).hashes key =
      if (hashGet (st.hashes key) f).isSome then st.hashes key
      else hashSet (st.hashes key) f v := by
  simp [hSetNX]

theorem incrBy_hashes (st : RedisState) (k : String) (n : ℚ) :
    (incrBy st k n).hashes = st.hashes := rfl

theorem sAdd_hashes (st : RedisState) (m : String) :
    (sAdd st m).hashes = st.hashes := rfl

theorem record_step (st : RedisState) (lat : ℚ) :
    (RecordAPICall "d" "h" "/p" 200 lat false st).hashes "metrics:path:/p" =
      (let h0 := st.hashes "metrics:path:/p"
       let h1 := hashSet h0 "total" ((hashGet h0 "total").getD 0 + 1)
       let h2 := hashSet h1 "latency_sum" ((hashGet h1 "latency_sum").getD 0 + lat)
       let h3 := if (hashGet h2 "min_latency").isSome then h2
         else hashSet h2 "min_latency" lat
       let h4 := if (hashGet h3 "max_latency").isSome then h3
         else hashSet h3 "max_latency" lat
       let h5 := hashSet h4 "success" ((hashGet h4 "success").getD 0 + 1)
       hashSet h5 "cache_misses" ((hashGet h5 "cache_misses").getD 0 + 1)) := by
  simp only [RecordAPICall]
  have ka : "metrics:path:" ++ "/p" = "metrics:path:/p" := rfl
  have kb : "metrics:daily:" ++ "d" = "metrics:daily:d" := rfl
  have kc : "metrics:hourly:" ++ "h" = "metrics:hourly:h" := rfl
  rw [ka, kb, kc]
  norm_num [incrBy_hashes, sAdd_hashes]
  rw [hIncrBy_hashes_ne _ _ _ (by decide), hIncrBy_hashes_ne _ _ _ (by decide),
    hIncrBy_hashes_ne _ _ _ (by decide)]
  simp only [hIncrBy_hashes_eq, hSetNX_hashes_eq]

end Repository

/-- C3 (code bug): the recorder seeds min/max latency with HSETNX, which
never updates an existing field, so min/max are never tightened by later
calls.  At the claim's own scenario — three calls with latencies 10, 50,
30 — `GetAPIStats` reports total 3 and average 30 as claimed, but
max_latency 10 instead of the claimed 50. -/
theorem Repository.minmax_latency_code_bug :
    Repository.GetAPIStats
        (Repository.RecordAPICall "d" "h" "/p" 200 30 false
          (Repository.RecordAPICall "d" "h" "/p" 200 50 false
            (Repository.RecordAPICall "d" "h" "/p" 200 10 false Repository.emptyRedis)))
        "/p" =
      ⟨"/p", 3, 3, 0, 30, 10, 10, 0, 3⟩ ∧
    (10 : ℚ) ≠ 50 := by
  constructor
  · have e1 : (Repository.RecordAPICall "d" "h" "/p" 200 10 false
        Repository.emptyRedis).hashes "metrics:path:/p" =
        [("total", (1 : ℚ)), ("latency_sum", 10), ("min_latency", 10),
          ("max_latency", 10), ("success", 1), ("cache_misses", 1)] := by
      rw [Repository.record_step]
      norm_num +decide [Repository.emptyRedis, Repository.hashSet, Repository.hashGet]
    have e2 : (Repository.RecordAPICall "d" "h" "/p" 200 50 false
        (Repository.RecordAPICall "d" "h" "/p" 200 10 false
          Repository.emptyRedis)).hashes "metrics:path:/p" =
        [("total", (2 : ℚ)), ("latency_sum", 60), ("min_latency", 10),
          ("max_latency", 10), ("success", 2), ("cache_misses", 2)] := by
      rw [Repository.record_step, e1]
      norm_num +decide [Repository.hashSet, Repository.hashGet]
    have e3 : (Repository.RecordAPICall "d" "h" "/p" 200 30 false
        (Repository.RecordAPICall "d" "h" "/p" 200 50 false
          (Repository.RecordAPICall "d" "h" "/p" 200 10 false
            Repository.emptyRedis))).hashes "metrics:path:/p" =
        [("total", (3 : ℚ)), ("latency_sum", 90), ("min_latency", 10),
          ("max_latency", 10), ("success", 3), ("cache_misses", 3)] := by
      rw [Repository.record_step, e2]
      norm_num +decide [Repository.hashSet, Repository.hashGet]
    simp only [Repository.GetAPIStats]
    rw [show "metrics:path:" ++ "/p" = "metrics:path:/p" from rfl, e3]
    norm_num +decide [Repository.hashGet]
  · norm_num


namespace Handler

theorem fanout_fold_spec {γ ε σ : Type} (getName : γ → String)
    (fetch : γ → Except ε (List σ)) (cats : List γ) :
    ∀ (order : List Nat) (acc : List (CategoryData σ)), acc.length = cats.length →
      (order.foldl (fun a i =>
          match cats[i]? with
          | some cat => a.set i (computeSlot getName fetch cat)
          | none => a) acc).length = cats.length ∧
      ∀ i, (order.foldl (fun a i =>
          match cats[i]? with
          | some cat => a.set i (computeSlot getName fetch cat)
          | none => a) acc)[i]? =
        if i ∈ order ∧ i < cats.length then cats[i]?.map (computeSlot getName fetch)
        else acc[i]? := by
  intro order
  induction order with
  | nil =>
    intro acc hacc
    refine ⟨hacc, fun i => ?_⟩
    simp
  | cons j rest ih =>
    intro acc hacc
    have hstep : (match cats[j]? with
        | some cat => acc.set j (computeSlot getName fetch cat)
        | none => acc).length = cats.length := by
      cases hj : cats[j]? <;> simp [hj, hacc]
    obtain ⟨hlen, hget⟩ := ih _ hstep
    refine ⟨hlen, fun i => ?_⟩
    rw [List.foldl_cons, hget i]
    by_cases hir : i ∈ rest ∧ i < cats.length
    · rw [if_pos hir, if_pos ⟨List.mem_cons_of_mem j hir.1, hir.2⟩]
    · rw [if_neg hir]
      by_cases hij : i = j
      · subst hij
        by_cases hlt : i < cats.length
        · have hc : cats[i]? = some (cats[i]) :=
            List.getElem?_eq_getElem hlt
          rw [if_pos ⟨List.mem_cons_self i rest, hlt⟩, hc]
          simp only
          rw [List.getElem?_set_eq_of_lt _ (by omega)]
          rfl
        · rw [if_neg (by tauto), List.getElem?_eq_none (l := cats) (by omega)]
      · rw [if_neg (by
          rintro ⟨hmem, hlt⟩
          rcases List.mem_cons.mp hmem with h | h
          · exact hij h
          · exact hir ⟨h, hlt⟩)]
        cases hj : cats[j]?
        · rfl
        · dsimp only
          rw [List.getElem?_set_ne (Ne.symm hij)]

end Handler

/-- C5: the fan-out aggregation (as in `GetLatest`'s 6 categories and
`GetMovies`' 8) returns exactly one slot per input category in input
order, regardless of the completion order of the goroutines; slot i is
computed from category i alone, and a failing sub-fetch yields the
category name with an explicit empty subject list in its own slot only —
the aggregation itself never fails (its result type carries no error). -/
theorem Handler.fanout_slots_contract {γ ε σ : Type} (getName : γ → String)
    (fetch : γ → Except ε (List σ)) (cats : List γ) (order : List Nat)
    (hperm : order.Perm (List.range cats.length)) :
    Handler.runFanout getName fetch cats order =
      cats.map (Handler.computeSlot getName fetch) ∧
    (Handler.runFanout getName fetch cats order).length = cats.length ∧
    (∀ cat e, fetch cat = .error e →
      Handler.computeSlot getName fetch cat = ⟨getName cat, []⟩) ∧
    Handler.latestCategories.length = 6 ∧ Handler.moviesCategories.length = 8 := by
  have hmem : ∀ i, i < cats.length → i ∈ order := fun i hi =>
    hperm.mem_iff.mpr (List.mem_range.mpr hi)
  obtain ⟨hlen, hget⟩ := Handler.fanout_fold_spec getName fetch cats order
    (List.replicate cats.length ⟨"", []⟩) (by simp)
  have hmap : Handler.runFanout getName fetch cats order =
      cats.map (Handler.computeSlot getName fetch) := by
    apply List.ext_getElem?
    intro i
    unfold Handler.runFanout
    rw [hget i]
    by_cases hi : i < cats.length
    · rw [if_pos ⟨hmem i hi, hi⟩, List.getElem?_map]
    · rw [if_neg (by tauto), List.getElem?_map,
        List.getElem?_eq_none (l := cats) (by omega),
        List.getElem?_eq_none (by simp; omega)]
      rfl
  refine ⟨hmap, by rw [hmap]; simp, fun cat e he => ?_, rfl, rfl⟩
  simp [Handler.computeSlot, he]

/-- Witness for the fan-out contract: the 8 `GetMovies` categories with a
scrambled completion order and one failing sub-fetch. -/
theorem Handler.fanout_slots_contract_witness :
    Handler.runFanout (fun c : String × String => c.1)
        (fun c => if c.2 = "动作" then Except.error "boom" else Except.ok [c.2])
        Handler.moviesCategories [5, 2, 7, 0, 1, 3, 4, 6] =
      Handler.moviesCategories.map (Handler.computeSlot (fun c => c.1)
        (fun c => if c.2 = "动作" then Except.error "boom" else Except.ok [c.2])) ∧
    List.Perm [5, 2, 7, 0, 1, 3, 4, 6] (List.range Handler.moviesCategories.length) :=
  ⟨(Handler.fanout_slots_contract _ _ _ _ (by decide)).1, by decide⟩


namespace Httpclient

theorem fetchFrom_success (oracle : Nat → Outcome) (d : Nat) (b : List Nat) :
    ∀ (k fuel attempt : Nat) (lastErr : Option GoError), k < fuel →
      (∀ i, attempt ≤ i → i < attempt + k → isFailure (oracle i) = true) →
      oracle (attempt + k) = .resp 200 b →
      (fetchFrom oracle d fuel attempt lastErr).data = some b ∧
      (fetchFrom oracle d fuel attempt lastErr).error = none ∧
      (fetchFrom oracle d fuel attempt lastErr).requests = k + 1 := by
  intro k
  induction k with
  | zero =>
    intro fuel attempt lastErr hk hfails ho
    obtain ⟨f, rfl⟩ : ∃ f, fuel = f + 1 := ⟨fuel - 1, by omega⟩
    rw [Nat.add_zero] at ho
    simp [fetchFrom, ho]
  | succ k ih =>
    intro fuel attempt lastErr hk hfails ho
    obtain ⟨f, rfl⟩ : ∃ f, fuel = f + 1 := ⟨fuel - 1, by omega⟩
    have hfail1 : isFailure (oracle attempt) = true :=
      hfails attempt le_rfl (by omega)
    have ho' : oracle (attempt + 1 + k) = .resp 200 b := by
      rw [show attempt + 1 + k = attempt + (k + 1) by omega]
      exact ho
    have hrec := ih f (attempt + 1) (some (errOf (oracle attempt))) (by omega)
      (fun i h1 h2 => hfails i (by omega) (by omega)) ho'
    cases hoa : oracle attempt with
    | netError e =>
      rw [hoa] at hrec
      simp only [fetchFrom, hoa, errOf] at hrec ⊢
      exact ⟨hrec.1, hrec.2.1, by rw [hrec.2.2]⟩
    | resp s body =>
      rw [hoa] at hrec
      have hs : s ≠ 200 := by
        rw [hoa] at hfail1
        simpa [isFailure] using hfail1
      by_cases hsr : s = 403 ∨ s = 429
      · simp only [fetchFrom, hoa, errOf, if_pos hsr] at hrec ⊢
        exact ⟨hrec.1, hrec.2.1, by rw [hrec.2.2]⟩
      · simp only [fetchFrom, hoa, errOf, if_neg hsr, if_pos hs] at hrec ⊢
        exact ⟨hrec.1, hrec.2.1, by rw [hrec.2.2]⟩
    | readError e =>
      rw [hoa] at hfail1
      simp [isFailure] at hfail1

theorem fetchFrom_allfail (oracle : Nat → Outcome) (d : Nat) :
    ∀ (fuel attempt : Nat) (lastErr : Option GoError), 0 < fuel →
      (∀ i, attempt ≤ i → i < attempt + fuel → isFailure (oracle i) = true) →
      (fetchFrom oracle d fuel attempt lastErr).data = none ∧
      (fetchFrom oracle d fuel attempt lastErr).requests = fuel ∧
      (fetchFrom oracle d fuel attempt lastErr).error =
        some (.allRetriesFailed (some (errOf (oracle (attempt + fuel - 1))))) := by
  intro fuel
  induction fuel with
  | zero => intro attempt lastErr h; omega
  | succ f ih =>
    intro attempt lastErr _ hfails
    have hfail1 : isFailure (oracle attempt) = true :=
      hfails attempt le_rfl (by omega)
    by_cases hf : f = 0
    · subst hf
      have he : attempt + 1 - 1 = attempt := by omega
      cases hoa : oracle attempt with
      | netError e => simp [fetchFrom, hoa, errOf, he]
      | resp s body =>
        have hs : s ≠ 200 := by
          rw [hoa] at hfail1
          simpa [isFailure] using hfail1
        by_cases hsr : s = 403 ∨ s = 429
        · simp [fetchFrom, hoa, errOf, he, if_pos hsr]
        · simp [fetchFrom, hoa, errOf, he, if_neg hsr, if_pos hs, hs]
      | readError e =>
        rw [hoa] at hfail1
        simp [isFailure] at hfail1
    · have hrec := ih (attempt + 1) (some (errOf (oracle attempt))) (by omega)
        (fun i h1 h2 => hfails i (by omega) (by omega))
      have he : attempt + 1 + f - 1 = attempt + (f + 1) - 1 := by omega
      rw [he] at hrec
      cases hoa : oracle attempt with
      | netError e =>
        rw [hoa] at hrec
        simp only [fetchFrom, hoa, errOf] at hrec ⊢
        exact ⟨hrec.1, by rw [hrec.2.1], hrec.2.2⟩
      | resp s body =>
        rw [hoa] at hrec
        have hs : s ≠ 200 := by
          rw [hoa] at hfail1
          simpa [isFailure] using hfail1
        by_cases hsr : s = 403 ∨ s = 429
        · simp only [fetchFrom, hoa, errOf, if_pos hsr] at hrec ⊢
          exact ⟨hrec.1, by rw [hrec.2.1], hrec.2.2⟩
        · simp only [fetchFrom, hoa, errOf, if_neg hsr, if_pos hs] at hrec ⊢
          exact ⟨hrec.1, by rw [hrec.2.1], hrec.2.2⟩
      | readError e =>
        rw [hoa] at hfail1
        simp [isFailure] at hfail1

end Httpclient


/-- C1 counterexample: the code treats only HTTP 200 as success
(`resp.StatusCode != http.StatusOK`), not every 2xx.  An upstream that
always answers 201 with body [120] makes Fetch exhaust all 3 attempts and
return an error with nil data, where the claim ("attempt k+1 returns a 2xx
response with body b ⇒ Fetch returns b after k+1 requests", here k = 0)
demands the body after one request. -/
theorem Httpclient.fetch_2xx_counterexample :
    Httpclient.Fetch (fun _ => .resp 201 [120]) =
      ⟨none, some (.allRetriesFailed (some (.httpStatus 201))), 3, []⟩ ∧
    (200 ≤ 201 ∧ 201 < 300) ∧
    Httpclient.Fetch (fun _ => .resp 201 [120]) ≠ ⟨some [120], none, 1, []⟩ := by
  refine ⟨rfl, by omega, ?_⟩
  intro h
  have h1 : (Httpclient.Fetch (fun _ => .resp 201 [120])).requests = 1 :=
    congrArg Httpclient.FetchResult.requests h
  have h3 : (Httpclient.Fetch (fun _ => .resp 201 [120])).requests = 3 := rfl
  omega

/-- C1 (amended, 2xx narrowed to exactly HTTP 200): if the first k
attempts fail (transport error or non-200 status) with k < 3 and attempt
k+1 returns HTTP 200 with readable body b, `Fetch` returns b with nil
error after exactly k+1 HTTP requests; if all 3 attempts fail, it returns
nil data, a single error wrapping the last observed attempt error, and
never issues a 4th request. -/
theorem Httpclient.fetch_retry_contract (oracle : Nat → Outcome) (k : Nat) (b : List Nat) :
    (k < 3 → (∀ i, 1 ≤ i → i ≤ k → Httpclient.isFailure (oracle i) = true) →
      oracle (k + 1) = .resp 200 b →
      (Httpclient.Fetch oracle).data = some b ∧
      (Httpclient.Fetch oracle).error = none ∧
      (Httpclient.Fetch oracle).requests = k + 1) ∧
    ((∀ i, 1 ≤ i → i ≤ 3 → Httpclient.isFailure (oracle i) = true) →
      (Httpclient.Fetch oracle).data = none ∧
      (Httpclient.Fetch oracle).requests = 3 ∧
      (Httpclient.Fetch oracle).error =
        some (.allRetriesFailed (some (Httpclient.errOf (oracle 3))))) := by
  constructor
  · intro hk hfails ho
    exact Httpclient.fetchFrom_success oracle 1000000000 b k 3 1 none hk
      (fun i h1 h2 => hfails i h1 (by omega))
      (by rw [show 1 + k = k + 1 by omega]; exact ho)
  · intro hfails
    have h := Httpclient.fetchFrom_allfail oracle 1000000000 3 1 none (by omega)
      (fun i h1 h2 => hfails i h1 (by omega))
    exact ⟨h.1, h.2.1, h.2.2⟩

/-- Witness for the retry contract: one transport failure, then a 200. -/
theorem Httpclient.fetch_retry_contract_witness :
    (Httpclient.Fetch
        (fun i => if i = 1 then .netError "timeout" else .resp 200 [104])).data =
      some [104] ∧
    (Httpclient.Fetch
        (fun i => if i = 1 then .netError "timeout" else .resp 200 [104])).requests = 2 ∧
    (Httpclient.Fetch (fun _ => .resp 500 [])).data = none ∧
    (Httpclient.Fetch (fun _ => .resp 500 [])).requests = 3 := by
  have h1 := (Httpclient.fetch_retry_contract
      (fun i => if i = 1 then .netError "timeout" else .resp 200 [104]) 1 [104]).1
    (by omega)
    (by
      intro i hi1 hi2
      have : i = 1 := by omega
      subst this
      rfl)
    rfl
  have h2 := (Httpclient.fetch_retry_contract (fun _ => .resp 500 []) 0 []).2
    (fun i _ _ => rfl)
  exact ⟨h1.1, h1.2.2, h2.1, h2.2.1⟩


namespace Httpclient

theorem fetchFrom_delays_mem (oracle : Nat → Outcome) (d : Nat) :
    ∀ (fuel attempt : Nat) (lastErr : Option GoError) (i dur : Nat),
      (i, dur) ∈ (fetchFrom oracle d fuel attempt lastErr).delays ↔
        attempt ≤ i ∧ i + 1 < attempt + fuel ∧
        (∀ j, attempt ≤ j → j ≤ i → continuesAfter (oracle j) = true) ∧
        isSlowFailure (oracle i) = true ∧ dur = d * 2 ^ (i - 1) := by
  intro fuel
  induction fuel with
  | zero =>
    intro attempt lastErr i dur
    simp only [fetchFrom, List.not_mem_nil, false_iff]
    rintro ⟨h1, h2, -⟩
    omega
  | succ f ih =>
    intro attempt lastErr i dur
    cases hoa : oracle attempt with
    | netError e =>
      simp only [fetchFrom, hoa]
      rw [List.mem_append, ih (attempt + 1) (some (.netErr e)) i dur]
      constructor
      · rintro (hA | hB)
        · rcases Nat.eq_zero_or_pos f with hf | hf
          · rw [hf, if_neg (by omega)] at hA
            simp at hA
          · rw [if_pos hf] at hA
            simp only [List.mem_singleton, Prod.mk.injEq] at hA
            obtain ⟨rfl, rfl⟩ := hA
            refine ⟨le_rfl, by omega, ?_, by rw [hoa]; rfl, rfl⟩
            intro j h1 h2
            have hj : j = i := by omega
            rw [hj, hoa]
            rfl
        · obtain ⟨hb1, hb2, hb3, hb4, hb5⟩ := hB
          refine ⟨by omega, by omega, ?_, hb4, hb5⟩
          intro j h1 h2
          rcases Nat.eq_or_lt_of_le h1 with hj | hgt
          · rw [← hj, hoa]
            rfl
          · exact hb3 j (by omega) h2
      · rintro ⟨h1, h2, h3, h4, h5⟩
        rcases Nat.eq_or_lt_of_le h1 with hj | hgt
        · left
          subst hj
          rw [if_pos (by omega)]
          simp [h5]
        · right
          exact ⟨by omega, by omega, fun j j1 j2 => h3 j (by omega) j2, h4, h5⟩
    | resp s body =>
      by_cases hsr : s = 403 ∨ s = 429
      · simp only [fetchFrom, hoa, if_pos hsr]
        rw [List.mem_append, ih (attempt + 1) (some (.httpStatus s)) i dur]
        have hcont : continuesAfter (oracle attempt) = true := by
          rw [hoa]
          simp [continuesAfter]
          omega
        have hslow : isSlowFailure (oracle attempt) = true := by
          rw [hoa]
          simp [isSlowFailure]
          tauto
        constructor
        · rintro (hA | hB)
          · rcases Nat.eq_zero_or_pos f with hf | hf
            · rw [hf, if_neg (by omega)] at hA
              simp at hA
            · rw [if_pos hf] at hA
              simp only [List.mem_singleton, Prod.mk.injEq] at hA
              obtain ⟨rfl, rfl⟩ := hA
              refine ⟨le_rfl, by omega, ?_, hslow, rfl⟩
              intro j h1 h2
              have hj : j = i := by omega
              rw [hj]
              exact hcont
          · obtain ⟨hb1, hb2, hb3, hb4, hb5⟩ := hB
            refine ⟨by omega, by omega, ?_, hb4, hb5⟩
            intro j h1 h2
            rcases Nat.eq_or_lt_of_le h1 with hj | hgt
            · rw [← hj]
              exact hcont
            · exact hb3 j (by omega) h2
        · rintro ⟨h1, h2, h3, h4, h5⟩
          rcases Nat.eq_or_lt_of_le h1 with hj | hgt
          · left
            subst hj
            rw [if_pos (by omega)]
            simp [h5]
          · right
            exact ⟨by omega, by omega, fun j j1 j2 => h3 j (by omega) j2, h4, h5⟩
      · by_cases hs200 : s = 200
        · subst hs200
          simp only [fetchFrom, hoa, if_neg hsr, if_neg (by omega : ¬ (200 : Nat) ≠ 200)]
          simp only [List.not_mem_nil, false_iff]
          rintro ⟨h1, h2, h3, -⟩
          have := h3 attempt le_rfl h1
          rw [hoa] at this
          simp [continuesAfter] at this
        · simp only [fetchFrom, hoa, if_neg hsr, if_pos hs200]
          rw [ih (attempt + 1) (some (.httpStatus s)) i dur]
          have hcont : continuesAfter (oracle attempt) = true := by
            rw [hoa]
            simp [continuesAfter, hs200]
          constructor
          · rintro ⟨hb1, hb2, hb3, hb4, hb5⟩
            refine ⟨by omega, by omega, ?_, hb4, hb5⟩
            intro j h1 h2
            rcases Nat.eq_or_lt_of_le h1 with hj | hgt
            · rw [← hj]
              exact hcont
            · exact hb3 j (by omega) h2
          · rintro ⟨h1, h2, h3, h4, h5⟩
            rcases Nat.eq_or_lt_of_le h1 with hj | hgt
            · exfalso
              rw [← hj, hoa] at h4
              simp [isSlowFailure] at h4
              tauto
            · exact ⟨by omega, by omega, fun j j1 j2 => h3 j (by omega) j2, h4, h5⟩
    | readError e =>
      simp only [fetchFrom, hoa]
      rw [ih (attempt + 1) (some (.readErr e)) i dur]
      have hcont : continuesAfter (oracle attempt) = true := by
        rw [hoa]
        rfl
      constructor
      · rintro ⟨hb1, hb2, hb3, hb4, hb5⟩
        refine ⟨by omega, by omega, ?_, hb4, hb5⟩
        intro j h1 h2
        rcases Nat.eq_or_lt_of_le h1 with hj | hgt
        · rw [← hj]
          exact hcont
        · exact hb3 j (by omega) h2
      · rintro ⟨h1, h2, h3, h4, h5⟩
        rcases Nat.eq_or_lt_of_le h1 with hj | hgt
        · exfalso
          rw [← hj, hoa] at h4
          simp [isSlowFailure] at h4
        · exact ⟨by omega, by omega, fun j j1 j2 => h3 j (by omega) j2, h4, h5⟩

end Httpclient


/-- C4 counterexample: an attempt failing with HTTP 500 (a retryable
failure per the claim) is retried with no backoff sleep at all — only
transport errors and 403/429 sleep.  Here attempt 1 fails with 500,
attempt 2 succeeds (2 requests), yet the delay list is empty, where the
claim demands a delay of retryDelay * 2^0 before attempt 2. -/
theorem Httpclient.backoff_counterexample :
    Httpclient.Fetch (fun i => if i = 1 then .resp 500 [] else .resp 200 [7]) =
      ⟨some [7], none, 2, []⟩ ∧
    Httpclient.isFailure (.resp 500 []) = true := ⟨rfl, rfl⟩

/-- C4 (amended): a backoff sleep of retryDelay * 2^(i-1) (retryDelay =
1s) is inserted between attempt i and attempt i+1 exactly when attempt i
failed with a transport error or HTTP 403/429 and i < retries = 3 (so
never before the first attempt nor after the final one, and only when all
attempts up to i continued the loop); failures with any other status, and
body-read failures, retry immediately with no delay. -/
theorem Httpclient.backoff_delay_contract (oracle : Nat → Outcome) (i dur : Nat) :
    (i, dur) ∈ (Httpclient.Fetch oracle).delays ↔
      1 ≤ i ∧ i < 3 ∧
      (∀ j, 1 ≤ j → j ≤ i → Httpclient.continuesAfter (oracle j) = true) ∧
      Httpclient.isSlowFailure (oracle i) = true ∧
      dur = 1000000000 * 2 ^ (i - 1) := by
  rw [show Httpclient.Fetch oracle =
      Httpclient.fetchFrom oracle 1000000000 3 1 none from rfl,
    Httpclient.fetchFrom_delays_mem oracle 1000000000 3 1 none i dur]
  constructor
  · rintro ⟨h1, h2, h3, h4, h5⟩
    exact ⟨h1, by omega, h3, h4, h5⟩
  · rintro ⟨h1, h2, h3, h4, h5⟩
    exact ⟨h1, by omega, h3, h4, h5⟩

/-- Witness for the backoff contract: a transport error on attempt 1
followed by a 200 yields exactly the sleep (1, 1s * 2^0). -/
theorem Httpclient.backoff_delay_contract_witness :
    (1, 1000000000) ∈
      (Httpclient.Fetch
        (fun i => if i = 1 then .netError "timeout" else .resp 200 [104])).delays ∧
    1 ≤ 1 ∧ (1 : Nat) < 3 ∧ (1000000000 : Nat) = 1000000000 * 2 ^ (1 - 1) :=
  ⟨(Httpclient.backoff_delay_contract
      (fun i => if i = 1 then .netError "timeout" else .resp 200 [104]) 1 1000000000).mpr
    ⟨le_rfl, by omega, by
      intro j h1 h2
      have hj : j = 1 := by omega
      rw [hj]
      rfl, rfl, by norm_num⟩,
    le_rfl, by omega, by norm_num⟩


namespace Service

theorem findBestMatchAux_acc_some (t y : GoStr) :
    ∀ (l : List TMDBSearchResult) (s : ℝ) (r0 : TMDBSearchResult),
      ∃ r, findBestMatchAux t y l s (some r0) = some r := by
  intro l
  induction l with
  | nil => intro s r0; exact ⟨r0, rfl⟩
  | cons h tl ih =>
    intro s r0
    by_cases hb : h.BackdropPath = []
    · simp only [findBestMatchAux, if_pos hb]
      exact ih s r0
    · by_cases hsc : matchScore h t y > s
      · simp only [findBestMatchAux, if_neg hb, if_pos hsc]
        exact ih _ h
      · simp only [findBestMatchAux, if_neg hb, if_neg hsc]
        exact ih s r0

theorem findBestMatchAux_const (t y : GoStr) :
    ∀ (l : List TMDBSearchResult) (s : ℝ) (acc : Option TMDBSearchResult),
      (∀ r ∈ l, r.BackdropPath ≠ [] → matchScore r t y ≤ s) →
      findBestMatchAux t y l s acc = acc := by
  intro l
  induction l with
  | nil => intro s acc _; rfl
  | cons h tl ih =>
    intro s acc hall
    by_cases hb : h.BackdropPath = []
    · simp only [findBestMatchAux, if_pos hb]
      exact ih s acc fun r hr hv => hall r (List.mem_cons_of_mem h hr) hv
    · have hle : matchScore h t y ≤ s := hall h (List.mem_cons_self h tl) hb
      have hns : ¬ matchScore h t y > s := not_lt.mpr hle
      simp only [findBestMatchAux, if_neg hb, if_neg hns]
      exact ih s acc fun r hr hv => hall r (List.mem_cons_of_mem h hr) hv

theorem findBestMatchAux_progress (t y : GoStr) :
    ∀ (l : List TMDBSearchResult) (s : ℝ) (acc : Option TMDBSearchResult),
      (∃ r ∈ l, r.BackdropPath ≠ [] ∧ matchScore r t y > s) →
      ∃ r, findBestMatchAux t y l s acc = some r := by
  intro l
  induction l with
  | nil =>
    intro s acc h
    obtain ⟨r, hr, -⟩ := h
    exact absurd hr (List.not_mem_nil r)
  | cons h tl ih =>
    intro s acc hex
    obtain ⟨r, hr, hv, hs⟩ := hex
    by_cases hb : h.BackdropPath = []
    · simp only [findBestMatchAux, if_pos hb]
      apply ih
      rcases List.mem_cons.mp hr with rfl | hmem
      · exact absurd hb hv
      · exact ⟨r, hmem, hv, hs⟩
    · by_cases hsc : matchScore h t y > s
      · simp only [findBestMatchAux, if_neg hb, if_pos hsc]
        exact findBestMatchAux_acc_some t y tl _ h
      · simp only [findBestMatchAux, if_neg hb, if_neg hsc]
        apply ih
        rcases List.mem_cons.mp hr with rfl | hmem
        · exact absurd hs hsc
        · exact ⟨r, hmem, hv, hs⟩

theorem findBestMatchAux_spec (t y : GoStr) :
    ∀ (l : List TMDBSearchResult) (s : ℝ) (acc : Option TMDBSearchResult)
      (r : TMDBSearchResult),
      findBestMatchAux t y l s acc = some r →
      (acc = some r ∧ ∀ x ∈ l, x.BackdropPath ≠ [] → matchScore x t y ≤ s) ∨
      (∃ i, ∃ hi : i < l.length, l.get ⟨i, hi⟩ = r ∧ r.BackdropPath ≠ [] ∧
        matchScore r t y > s ∧
        (∀ j, ∀ hj : j < l.length, (l.get ⟨j, hj⟩).BackdropPath ≠ [] →
          matchScore (l.get ⟨j, hj⟩) t y ≤ matchScore r t y) ∧
        (∀ j, ∀ hj : j < l.length, j < i → (l.get ⟨j, hj⟩).BackdropPath ≠ [] →
          matchScore (l.get ⟨j, hj⟩) t y < matchScore r t y)) := by
  intro l
  induction l with
  | nil =>
    intro s acc r hr
    exact Or.inl ⟨hr, fun x hx => absurd hx (List.not_mem_nil x)⟩
  | cons h tl ih =>
    intro s acc r hr
    by_cases hb : h.BackdropPath = []
    · simp only [findBestMatchAux, if_pos hb] at hr
      rcases ih s acc r hr with ⟨ha, hall⟩ | ⟨i, hi, hget, hv, hgt, hmax, hfirst⟩
      · refine Or.inl ⟨ha, fun x hx hxv => ?_⟩
        rcases List.mem_cons.mp hx with rfl | hmem
        · exact absurd hb hxv
        · exact hall x hmem hxv
      · refine Or.inr ⟨i + 1, by simpa using Nat.succ_lt_succ hi, hget, hv, hgt,
          ?_, ?_⟩
        · intro j hj hjv
          cases j with
          | zero => exact absurd hb hjv
          | succ j => exact hmax j (by simpa using Nat.lt_of_succ_lt_succ hj) hjv
        · intro j hj hji hjv
          cases j with
          | zero => exact absurd hb hjv
          | succ j =>
            exact hfirst j (by simpa using Nat.lt_of_succ_lt_succ hj)
              (Nat.lt_of_succ_lt_succ hji) hjv
    · by_cases hsc : matchScore h t y > s
      · simp only [findBestMatchAux, if_neg hb, if_pos hsc] at hr
        rcases ih (matchScore h t y) (some h) r hr with ⟨ha, hall⟩ |
          ⟨i, hi, hget, hv, hgt, hmax, hfirst⟩
        · have hhr : h = r := Option.some.inj ha
          subst hhr
          refine Or.inr ⟨0, Nat.succ_pos _, rfl, hb, hsc, ?_, ?_⟩
          · intro j hj hjv
            cases j with
            | zero => exact le_rfl
            | succ j =>
              exact hall (tl.get ⟨j, Nat.lt_of_succ_lt_succ hj⟩)
                (List.get_mem tl j (Nat.lt_of_succ_lt_succ hj)) hjv
          · intro j hj hji hjv
            exact absurd hji (Nat.not_lt_zero j)
        · refine Or.inr ⟨i + 1, Nat.succ_lt_succ hi, hget, hv,
            lt_trans hsc hgt, ?_, ?_⟩
          · intro j hj hjv
            cases j with
            | zero => exact le_of_lt hgt
            | succ j => exact hmax j (Nat.lt_of_succ_lt_succ hj) hjv
          · intro j hj hji hjv
            cases j with
            | zero => exact hgt
            | succ j =>
              exact hfirst j (Nat.lt_of_succ_lt_succ hj)
                (Nat.lt_of_succ_lt_succ hji) hjv
      · simp only [findBestMatchAux, if_neg hb, if_neg hsc] at hr
        have hle : matchScore h t y ≤ s := not_lt.mp hsc
        rcases ih s acc r hr with ⟨ha, hall⟩ | ⟨i, hi, hget, hv, hgt, hmax, hfirst⟩
        · refine Or.inl ⟨ha, fun x hx hxv => ?_⟩
          rcases List.mem_cons.mp hx with rfl | hmem
          · exact hle
          · exact hall x hmem hxv
        · refine Or.inr ⟨i + 1, Nat.succ_lt_succ hi, hget, hv, hgt, ?_, ?_⟩
          · intro j hj hjv
            cases j with
            | zero => exact le_trans hle (le_of_lt hgt)
            | succ j => exact hmax j (Nat.lt_of_succ_lt_succ hj) hjv
          · intro j hj hji hjv
            cases j with
            | zero => exact lt_of_le_of_lt hle hgt
            | succ j =>
              exact hfirst j (Nat.lt_of_succ_lt_succ hj)
                (Nat.lt_of_succ_lt_succ hji) hjv

end Service


namespace Service

theorem matchScore_eq_specScore (r : TMDBSearchResult) (t y : GoStr) :
    matchScore r t y = specScore r t y := by
  have hyear : (if y ≠ [] ∧ 4 ≤ r.ReleaseDate.length then
        (if r.ReleaseDate.take 4 = y then (0 : ℝ) + 100
          else if goAbs (atoi (r.ReleaseDate.take 4) - atoi y) ≤ 1 then (0 : ℝ) + 50
          else 0)
        else 0) =
      (if y = [] ∨ r.ReleaseDate.length < 4 then (0 : ℝ)
        else if r.ReleaseDate.take 4 = y then 100
        else if goAbs (atoi (r.ReleaseDate.take 4) - atoi y) ≤ 1 then 50
        else 0) := by
    by_cases h1 : y ≠ [] ∧ 4 ≤ r.ReleaseDate.length
    · have h2 : ¬ (y = [] ∨ r.ReleaseDate.length < 4) := by
        push_neg
        exact ⟨h1.1, by omega⟩
      rw [if_pos h1, if_neg h2]
      split_ifs <;> ring
    · have h2 : y = [] ∨ r.ReleaseDate.length < 4 := by
        by_contra hc
        push_neg at hc
        exact h1 ⟨hc.1, by omega⟩
      rw [if_neg h1, if_pos h2]
  simp only [matchScore, specScore]
  rw [hyear]
  split_ifs <;> ring

end Service

/-- C2: `findBestMatch` never returns a candidate with an empty backdrop
path; the returned candidate is the first-encountered one with strictly
greatest score, with a strictly positive score; the result is none exactly
when every candidate with an image scores at most 0 (covering the empty
and all-excluded cases); and every candidate's score equals the claim's
formula: year term + title term + 2*rating + 5*log10(popularity + 1). -/
theorem Service.findBestMatch_contract (results : List Service.TMDBSearchResult)
    (t y : GoStr) :
    (∀ r, Service.findBestMatch results t y = some r →
      r.BackdropPath ≠ [] ∧
      ∃ i, ∃ hi : i < results.length, results.get ⟨i, hi⟩ = r ∧
        Service.matchScore r t y > 0 ∧
        (∀ j, ∀ hj : j < results.length,
          (results.get ⟨j, hj⟩).BackdropPath ≠ [] →
          Service.matchScore (results.get ⟨j, hj⟩) t y ≤ Service.matchScore r t y) ∧
        (∀ j, ∀ hj : j < results.length, j < i →
          (results.get ⟨j, hj⟩).BackdropPath ≠ [] →
          Service.matchScore (results.get ⟨j, hj⟩) t y < Service.matchScore r t y)) ∧
    (Service.findBestMatch results t y = none ↔
      ∀ r ∈ results, r.BackdropPath ≠ [] → Service.matchScore r t y ≤ 0) ∧
    (∀ r, Service.matchScore r t y = Service.specScore r t y) := by
  refine ⟨?_, ?_, fun r => Service.matchScore_eq_specScore r t y⟩
  · intro r hr
    rcases Service.findBestMatchAux_spec t y results 0 none r hr with
      ⟨ha, -⟩ | ⟨i, hi, hget, hv, hgt, hmax, hfirst⟩
    · exact Option.noConfusion ha
    · exact ⟨hv, i, hi, hget, hgt, hmax, hfirst⟩
  · constructor
    · intro hn r hrmem hv
      by_contra hgt
      push_neg at hgt
      obtain ⟨r', hr'⟩ :=
        Service.findBestMatchAux_progress t y results 0 none ⟨r, hrmem, hv, hgt⟩
      rw [show Service.findBestMatch results t y =
        Service.findBestMatchAux t y results 0 none from rfl, hr'] at hn
      exact Option.noConfusion hn
    · intro hall
      exact Service.findBestMatchAux_const t y results 0 none hall


namespace Service

theorem findBestMatchAux_nil (t y : GoStr) (s : ℝ) (acc : Option TMDBSearchResult) :
    findBestMatchAux t y [] s acc = acc := rfl

theorem findBestMatchAux_cons_skip (t y : GoStr) {h : TMDBSearchResult}
    (tl : List TMDBSearchResult) (s : ℝ) (acc : Option TMDBSearchResult)
    (hb : h.BackdropPath = []) :
    findBestMatchAux t y (h :: tl) s acc = findBestMatchAux t y tl s acc := by
  rw [findBestMatchAux, if_pos hb]

theorem findBestMatchAux_cons_update (t y : GoStr) {h : TMDBSearchResult}
    (tl : List TMDBSearchResult) (s : ℝ) (acc : Option TMDBSearchResult)
    (hb : ¬ h.BackdropPath = []) (hsc : matchScore h t y > s) :
    findBestMatchAux t y (h :: tl) s acc =
      findBestMatchAux t y tl (matchScore h t y) (some h) := by
  rw [findBestMatchAux, if_neg hb, if_pos hsc]

end Service

/-- Witness for the matcher contract: the no-image candidate is skipped and
the imaged exact-match candidate (score 160) is returned with the
first-strict-max property. -/
theorem Service.findBestMatch_contract_witness :
    Service.findBestMatch [Service.candNoImage, Service.candBest]
        (asciiStr "dune") (asciiStr "2021") = some Service.candBest ∧
    (Service.candBest.BackdropPath ≠ [] ∧
      ∃ i, ∃ hi : i < ([Service.candNoImage, Service.candBest].length),
        [Service.candNoImage, Service.candBest].get ⟨i, hi⟩ = Service.candBest ∧
        Service.matchScore Service.candBest (asciiStr "dune") (asciiStr "2021") > 0 ∧
        (∀ j, ∀ hj : j < ([Service.candNoImage, Service.candBest].length),
          ([Service.candNoImage, Service.candBest].get ⟨j, hj⟩).BackdropPath ≠ [] →
          Service.matchScore ([Service.candNoImage, Service.candBest].get ⟨j, hj⟩)
              (asciiStr "dune") (asciiStr "2021") ≤
            Service.matchScore Service.candBest (asciiStr "dune") (asciiStr "2021")) ∧
        (∀ j, ∀ hj : j < ([Service.candNoImage, Service.candBest].length), j < i →
          ([Service.candNoImage, Service.candBest].get ⟨j, hj⟩).BackdropPath ≠ [] →
          Service.matchScore ([Service.candNoImage, Service.candBest].get ⟨j, hj⟩)
              (asciiStr "dune") (asciiStr "2021") <
            Service.matchScore Service.candBest (asciiStr "dune") (asciiStr "2021"))) := by
  have hb1 : Service.candNoImage.BackdropPath = ([] : GoStr) := rfl
  have hb2 : ¬ Service.candBest.BackdropPath = ([] : GoStr) := by decide
  have hsc : Service.matchScore Service.candBest (asciiStr "dune") (asciiStr "2021") =
      160 := by
    simp only [Service.matchScore, Service.candBest]
    norm_num +decide [Real.logb_one]
  have hgt : Service.matchScore Service.candBest (asciiStr "dune") (asciiStr "2021") >
      0 := by
    rw [hsc]
    norm_num
  have hfb : Service.findBestMatch [Service.candNoImage, Service.candBest]
      (asciiStr "dune") (asciiStr "2021") = some Service.candBest := by
    show Service.findBestMatchAux (asciiStr "dune") (asciiStr "2021")
      [Service.candNoImage, Service.candBest] 0 none = some Service.candBest
    rw [Service.findBestMatchAux_cons_skip _ _ _ _ _ hb1,
      Service.findBestMatchAux_cons_update _ _ _ _ _ hb2 hgt,
      Service.findBestMatchAux_nil]
  exact ⟨hfb, (Service.findBestMatch_contract
    [Service.candNoImage, Service.candBest] (asciiStr "dune") (asciiStr "2021")).1
    Service.candBest hfb⟩
